import Mathlib

set_option maxRecDepth 8000

/-
Verification of the croak repository's workflow/state engine and its
validation layer against the natural-language specification.

Modelling conventions (shallow embedding of the Python source):
* Python floats are modelled as exact rationals; `int(x)` is truncation
  toward zero (`py_trunc`).
* Python list slicing `a[i:j]` (with clamping and negative indices counted
  from the end) is `py_slice`.
* The seeded, stateful `random.shuffle` is modelled as an abstract family
  `sh : Nat -> List _ -> List _` of list transformations, indexed by the
  order in which the shuffle calls consume the generator state; theorems
  assume each `sh i` permutes its input, which the Fisher-Yates shuffle of
  CPython does for every seed.
* Python dicts are insertion-ordered association lists; `defaultdict(list)`
  grouping is `add_to_groups` / `group_by_class`.
* Raised exceptions become `Except` results; functions that touch the
  filesystem thread an explicit `FS` state and return it alongside the
  result, so "raises before any filesystem mutation" is expressible.
-/

/-- An image/label pair found by `DatasetSplitter._find_pairs`: the image
file name together with the lines of its same-stem label file. -/
structure ImgPair where
  img : String
  label : List String
deriving DecidableEq

/-- Python `int(x)` applied to a float: truncation toward zero. -/
def py_trunc (q : ℚ) : Int :=
  if q < 0 then ⌈q⌉ else ⌊q⌋

/-- Normalise one bound of a Python slice `a[i:j]` for a list of length
`n`: negative indices count from the end, and both ends clamp to `[0, n]`. -/
def py_slice_index (n : ℕ) (i : Int) : ℕ :=
  if i < 0 then (i + n).toNat else min i.toNat n

/-- Python `a[i:j]`. -/
def py_slice {α : Type*} (l : List α) (i j : Int) : List α :=
  (l.take (py_slice_index l.length j)).drop (py_slice_index l.length i)

/-- Accumulator pass behind `py_tokens`: `cur` holds the reversed
characters of the token currently being read. -/
def tokens_aux : List Char → List Char → List (List Char)
  | [], cur => if cur.isEmpty then [] else [cur.reverse]
  | c :: rest, cur =>
    if c.isWhitespace then
      if cur.isEmpty then tokens_aux rest [] else cur.reverse :: tokens_aux rest []
    else tokens_aux rest (c :: cur)

/-- Python `line.strip().split()`: the maximal whitespace-free tokens of
the line (stripping first changes nothing, since `split()` already ignores
leading/trailing whitespace; the stripped line is empty exactly when there
are no tokens). -/
def py_tokens (s : String) : List String :=
  (tokens_aux s.data []).map (fun cs => ⟨cs⟩)

/-- One digit-run pass behind `py_int?`. -/
def digits_val : List Char → ℕ → Option ℕ
  | [], acc => some acc
  | c :: rest, acc =>
    if c.isDigit then digits_val rest (10 * acc + (c.toNat - 48)) else none

/-- Python `int(token)` on a whitespace-free token: an optional sign
followed by at least one decimal digit (digit-group underscores, accepted
by Python since 3.6, do not occur in this data model). -/
def py_int? (s : String) : Option Int :=
  match s.data with
  | [] => none
  | '-' :: ds => if ds.isEmpty then none else (digits_val ds 0).map (fun n => -(n : Int))
  | '+' :: ds => if ds.isEmpty then none else (digits_val ds 0).map (fun n => (n : Int))
  | ds => (digits_val ds 0).map (fun n => (n : Int))

/-- The grouping key used by `_stratified_split`: the integer class id of
the first annotation line, with `-1` for an empty file, a blank first line,
or an unparseable class token (the `except` branch of the source). -/
def strata_key (p : ImgPair) : Int :=
  match p.label.head? with
  | none => -1
  | some line =>
    match py_tokens line with
    | [] => -1
    | w :: _ =>
      match py_int? w with
      | some k => k
      | none => -1

/-- Insert a pair into the insertion-ordered groups of
`defaultdict(list)`: append to an existing key's list, or add a new key at
the end. -/
def add_to_groups (gs : List (Int × List ImgPair)) (k : Int) (p : ImgPair) :
    List (Int × List ImgPair) :=
  match gs with
  | [] => [(k, [p])]
  | (k0, ps) :: rest =>
    if k0 = k then (k0, ps ++ [p]) :: rest
    else (k0, ps) :: add_to_groups rest k p

/-- The `by_class` grouping loop of `_stratified_split`. -/
def group_by_class (pairs : List ImgPair) : List (Int × List ImgPair) :=
  pairs.foldl (fun gs p => add_to_groups gs (strata_key p) p) []

/-- Abstract model of the seeded `random.shuffle`: the `i`-th shuffle call
performed by one `split()` invocation. -/
abbrev Shuffle := ℕ → List ImgPair → List ImgPair

/-- `DatasetSplitter._random_split`: shuffle once, then slice by the
truncated ratio boundaries.  (The `test_ratio` argument of the source is
unused by the function body and therefore omitted here.) -/
def random_split (sh : Shuffle) (pairs : List ImgPair) (tr vr : ℚ) :
    List ImgPair × List ImgPair × List ImgPair :=
  let l := sh 0 pairs
  let n : ℕ := l.length
  let train_end : Int := py_trunc ((n : ℚ) * tr)
  let val_end : Int := train_end + py_trunc ((n : ℚ) * vr)
  (py_slice l 0 train_end, py_slice l train_end val_end, py_slice l val_end (n : Int))

/-- The per-group loop of `_stratified_split`: shuffle each group (in group
insertion order, consuming successive generator states) and slice it, then
extend the three accumulating splits. -/
def strat_parts (sh : Shuffle) (tr vr : ℚ) :
    List (Int × List ImgPair) → ℕ → List ImgPair × List ImgPair × List ImgPair
  | [], _ => ([], [], [])
  | (_, g) :: rest, i =>
    let sg := sh i g
    let n : ℕ := sg.length
    let train_end : Int := py_trunc ((n : ℚ) * tr)
    let val_end : Int := train_end + py_trunc ((n : ℚ) * vr)
    let r := strat_parts sh tr vr rest (i + 1)
    (py_slice sg 0 train_end ++ r.1,
     py_slice sg train_end val_end ++ r.2.1,
     py_slice sg val_end (n : Int) ++ r.2.2)

/-- `DatasetSplitter._stratified_split`: group by primary class, split each
group, then re-shuffle each assembled split. -/
def stratified_split (sh : Shuffle) (pairs : List ImgPair) (tr vr : ℚ) :
    List ImgPair × List ImgPair × List ImgPair :=
  let gs := group_by_class pairs
  let r := strat_parts sh tr vr gs 0
  (sh gs.length r.1, sh (gs.length + 1) r.2.1, sh (gs.length + 2) r.2.2)

/-- Multiset of all pairs stored in a group list. -/
def groups_multiset (gs : List (Int × List ImgPair)) : Multiset ImgPair :=
  (gs.map (fun g => (g.2 : Multiset ImgPair))).sum

/-- A concrete twelve-pair dataset over three classes, used to witness C1
(twelve pairs, so that the stratified branch is the one `split()` takes). -/
def c1_pairs : List ImgPair :=
  (List.range 12).map (fun i => ⟨"img_" ++ toString i, [toString (i % 3) ++ " 0.5 0.5 0.1 0.1"]⟩)

/-- Reading one label file in `_infer_class_names`: the class ids of the
first whitespace token of each line, in order, stopping at the first line
whose token fails `int()` (the `except` clause abandons the rest of that
file but keeps the ids already added). -/
def collect_file_ids : List String → List Int
  | [] => []
  | line :: rest =>
    match py_tokens line with
    | [] => collect_file_ids rest
    | w :: _ =>
      match py_int? w with
      | some k => k :: collect_file_ids rest
      | none => []

/-- Insert into a Python set modelled as a duplicate-free list (insertion
order is irrelevant because the set is sorted before use). -/
def set_insert (s : List Int) (k : Int) : List Int :=
  if k ∈ s then s else s ++ [k]

/-- The `class_ids` set accumulated by `_infer_class_names` over the first
100 sampled label files. -/
def class_ids_list (pairs : List ImgPair) : List Int :=
  (pairs.take 100).foldl (fun s p => (collect_file_ids p.label).foldl set_insert s) []

/-- Insertion step of the sort modelling Python `sorted`. -/
def insert_sorted (k : Int) : List Int → List Int
  | [] => [k]
  | x :: xs => if k ≤ x then k :: x :: xs else x :: insert_sorted k xs

/-- Python `sorted` on integers (insertion sort). -/
def sort_ids : List Int → List Int
  | [] => []
  | x :: xs => insert_sorted x (sort_ids xs)

/-- The generated-names branch of `_infer_class_names`:
`[f"class_{i}" for i in sorted(class_ids)]`. -/
def generated_class_names (pairs : List ImgPair) : List String :=
  (sort_ids (class_ids_list pairs)).map (fun i => "class_" ++ toString i)

/-- `DatasetSplitter._infer_class_names`.  `config_classes` is the
`classes` entry of the project config when that file exists and parses
(`none` covers a missing/unreadable file or missing key), and
`manifest_names` the `names` of an existing `data.yaml`; a present but
empty list is falsy in Python and also falls through. -/
def infer_class_names (config_classes manifest_names : Option (List String))
    (pairs : List ImgPair) : List String :=
  match config_classes with
  | some cs =>
    if cs ≠ [] then cs
    else
      match manifest_names with
      | some ns => if ns ≠ [] then ns else generated_class_names pairs
      | none => generated_class_names pairs
  | none =>
    match manifest_names with
    | some ns => if ns ≠ [] then ns else generated_class_names pairs
    | none => generated_class_names pairs

/-- Modelled from the claim wording of C4 (for comparison with the source
behaviour): collect the class ids of only the *first* label line of each of
up to 100 sampled files. -/
def infer_first_line_only (pairs : List ImgPair) : List String :=
  let firsts := (pairs.take 100).filterMap (fun p =>
    p.label.head? >>= fun line =>
      match py_tokens line with
      | [] => none
      | w :: _ => py_int? w)
  (sort_ids (firsts.foldl set_insert [])).map (fun i => "class_" ++ toString i)

/-- Explicit filesystem state threaded through the effectful operations:
the directories created and the files written (path, content), in creation
order. -/
structure FS where
  dirs : List String
  files : List (String × String)
deriving DecidableEq

/-- `Path.mkdir(parents=True, exist_ok=True)` for one directory. -/
def fs_mkdir (fs : FS) (d : String) : FS :=
  if d ∈ fs.dirs then fs else { fs with dirs := fs.dirs ++ [d] }

/-- Write (or overwrite) one file. -/
def fs_write (fs : FS) (path content : String) : FS :=
  if path ∈ fs.files.map Prod.fst then
    { fs with files := fs.files.map (fun f => if f.1 = path then (path, content) else f) }
  else { fs with files := fs.files ++ [(path, content)] }

/-- `DatasetSplitter._setup_output_dirs`. -/
def setup_output_dirs (fs : FS) : FS :=
  ["train", "val", "test"].foldl (fun fs s =>
    fs_mkdir (fs_mkdir fs ("processed/images/" ++ s)) ("processed/labels/" ++ s)) fs

/-- `DatasetSplitter._copy_splits` for one split directory: copy each
image and its label file (contents modelled by the pair itself). -/
def copy_one_split (fs : FS) (s : String) (ps : List ImgPair) : FS :=
  ps.foldl (fun fs p =>
    fs_write (fs_write fs ("processed/images/" ++ s ++ "/" ++ p.img) p.img)
      ("processed/labels/" ++ s ++ "/" ++ p.img ++ ".txt")
      (String.intercalate "\n" p.label)) fs

/-- `DatasetSplitter._copy_splits`. -/
def copy_splits (fs : FS) (splits : List ImgPair × List ImgPair × List ImgPair) : FS :=
  copy_one_split (copy_one_split (copy_one_split fs "train" splits.1) "val" splits.2.1)
    "test" splits.2.2

/-- The `data.yaml` document produced by `_create_data_yaml`. -/
structure DataYaml where
  path : String
  train : String
  val : String
  test : String
  names : List (ℕ × String)
  nc : ℕ
deriving DecidableEq

/-- `DatasetSplitter._create_data_yaml` (document part). -/
def create_data_yaml (names : List String) : DataYaml :=
  { path := "processed", train := "images/train", val := "images/val",
    test := "images/test", names := names.enum, nc := names.length }

/-- Serialisation of the data.yaml write (content abbreviated to the class
count, which is all the claims inspect). -/
def write_data_yaml (fs : FS) (dy : DataYaml) : FS :=
  fs_write fs "processed/data.yaml" ("nc: " ++ toString dy.nc)

/-- The statistics dict returned by `DatasetSplitter.split`. -/
structure SplitStats where
  train : ℕ
  val : ℕ
  test : ℕ
  total : ℕ
  classes : List String
  num_classes : ℕ
  seed : ℕ
  stratified : Bool
deriving DecidableEq

/-- `DatasetSplitter.split`: validate the ratio sum, fail on an empty pair
list, infer class names when none are given (Python truthiness: `None` or
an empty list), split (stratified only when requested and more than ten
pairs), then create directories, copy files and write `data.yaml`.  The
`seed` seeds the generator behind `sh` and is recorded in the result. -/
def DatasetSplitter.split (sh : Shuffle) (fs : FS) (pairs : List ImgPair)
    (tr vr te : ℚ) (seed : ℕ) (stratify : Bool)
    (class_names config_classes manifest_names : Option (List String)) :
    FS × Except String SplitStats :=
  if 1/1000 < |tr + vr + te - 1| then
    (fs, .error "Ratios must sum to 1.0")
  else if pairs = [] then
    (fs, .error "No image-label pairs found. Check data/raw and data/annotations.")
  else
    let names := match class_names with
      | some cs => if cs = [] then infer_class_names config_classes manifest_names pairs else cs
      | none => infer_class_names config_classes manifest_names pairs
    let splits := if stratify ∧ 10 < pairs.length
      then stratified_split sh pairs tr vr
      else random_split sh pairs tr vr
    let fs1 := setup_output_dirs fs
    let fs2 := copy_splits fs1 splits
    let fs3 := write_data_yaml fs2 (create_data_yaml names)
    let st : SplitStats := {
      train := splits.1.length
      val := splits.2.1.length
      test := splits.2.2.length
      total := pairs.length
      classes := names
      num_classes := names.length
      seed := seed
      stratified := stratify }
    (fs3, .ok st)

/-- Python `int(len(group) * train_ratio)` clamped as the train slice
bound. -/
def train_cut (n : ℕ) (tr : ℚ) : ℕ :=
  min (py_trunc ((n : ℚ) * tr)).toNat n

/-- The clamped `val_end` slice bound. -/
def val_cut (n : ℕ) (tr vr : ℚ) : ℕ :=
  min (py_trunc ((n : ℚ) * tr) + py_trunc ((n : ℚ) * vr)).toNat n

/-- The concrete 100-pair, three-balanced-class dataset of the end-to-end
scenario (classes cycle as in the repository's own test fixture). -/
def c3_pairs : List ImgPair :=
  (List.range 100).map (fun i => ⟨"img_" ++ toString i, [toString (i % 3) ++ " 0.5 0.5 0.1 0.1"]⟩)

/-- The empty starting filesystem used by concrete scenarios. -/
def fs0 : FS :=
  { dirs := [], files := [] }

/-- The statistics actually produced by the 100-pair three-class
scenario. -/
def c3_stats : SplitStats := {
  train := 79
  val := 13
  test := 8
  total := 100
  classes := ["class_0", "class_1", "class_2"]
  num_classes := 3
  seed := 42
  stratified := true }

/-- `ValidationResult` of the data validator (`croak.data.validator`): a
transient pass/fail report.  Statistics values are opaque here. -/
structure ValidationResult where
  passed : Bool := true
  warnings : List String := []
  errors : List String := []
  statistics : List (String × String) := []
deriving DecidableEq

/-- `ValidationResult.add_warning`: append only. -/
def ValidationResult.add_warning (r : ValidationResult) (msg : String) : ValidationResult :=
  { r with warnings := r.warnings ++ [msg] }

/-- `ValidationResult.add_error`: append the message and clear `passed`. -/
def ValidationResult.add_error (r : ValidationResult) (msg : String) : ValidationResult :=
  { r with errors := r.errors ++ [msg], passed := false }

/-- A freshly constructed `ValidationResult()`. -/
def init_validation_result : ValidationResult := {}

/-- One mutation of a `ValidationResult` (the only two mutators the class
offers). -/
inductive VOp where
  | warn (msg : String)
  | err (msg : String)
deriving DecidableEq

/-- Apply one mutator call. -/
def apply_vop (r : ValidationResult) : VOp → ValidationResult
  | .warn m => r.add_warning m
  | .err m => r.add_error m

/-- Whether an operation is an `add_error` call. -/
def vop_is_err : VOp → Bool
  | .warn _ => false
  | .err _ => true

/-- Run a call sequence against a fresh result. -/
def run_vops (ops : List VOp) : ValidationResult :=
  ops.foldl apply_vop init_validation_result

/-- `AnnotationState` of `croak.core.state`. -/
structure AnnotState where
  source : Option String := none
  method : Option String := none
  format : Option String := none
  vfrog_iteration_id : Option String := none
  vfrog_object_id : Option String := none
deriving DecidableEq

/-- `TrainingState` of `croak.core.state`. -/
structure TrainingState where
  provider : Option String := none
  architecture : Option String := none
  experiment_id : Option String := none
  vfrog_iteration_id : Option String := none
deriving DecidableEq

/-- `DeploymentState` of `croak.core.state`. -/
structure DeploymentState where
  target : Option String := none
  vfrog_api_key_env : String := "VFROG_API_KEY"
deriving DecidableEq

/-- `DatasetArtifact` of `croak.core.state`. -/
structure DatasetArtifact where
  path : Option String := none
  format : Option String := none
  version : Option String := none
  checksum : Option String := none
  classes : List String := []
  splits : List (String × ℕ) := []
  quality_report_path : Option String := none
  vfrog_project_id : Option String := none
deriving DecidableEq

/-- `ModelArtifact` of `croak.core.state`. -/
structure ModelArtifact where
  path : Option String := none
  architecture : Option String := none
  framework : Option String := none
  experiment_id : Option String := none
  checkpoints : List (String × Option String) := []
  metrics : List (String × Option ℚ) := []
  training_time_hours : Option ℚ := none
  cost_usd : Option ℚ := none
  handoff_path : Option String := none
deriving DecidableEq

/-- `EvaluationArtifact` of `croak.core.state`. -/
structure EvaluationArtifact where
  report_path : Option String := none
  metrics : List (String × Option ℚ) := []
  deployment_ready : Bool := false
  recommended_threshold : Option ℚ := none
deriving DecidableEq

/-- `DeploymentArtifact` of `croak.core.state`. -/
structure DeploymentArtifact where
  cloud_endpoint : Option String := none
  cloud_api_key : Option String := none
  cloud_dashboard : Option String := none
  edge_model_path : Option String := none
  edge_format : Option String := none
  benchmark : List (String × Option ℚ) := []
deriving DecidableEq

/-- `Artifacts` of `croak.core.state`. -/
structure Artifacts where
  dataset : DatasetArtifact := {}
  model : ModelArtifact := {}
  evaluation : EvaluationArtifact := {}
  deployment : DeploymentArtifact := {}
deriving DecidableEq

/-- `Experiment` of `croak.core.state`. -/
structure Experiment where
  id : String
  status : String := "pending"
  started : Option String := none
  completed : Option String := none
  architecture : Option String := none
  metrics : List (String × ℚ) := []
  model_path : Option String := none
deriving DecidableEq

/-- `StageHistory` of `croak.core.state`. -/
structure StageHistory where
  stage : String
  completed_at : String
  duration_seconds : Option ℚ := none
  artifacts : List (String × String) := []
deriving DecidableEq

/-- `PipelineState` of `croak.core.state` (pydantic model; the field
called `annotation` in the source is named `annot_state` here). -/
structure PipelineState where
  version : String := "1.0"
  initialized_at : Option String := none
  last_updated : Option String := none
  current_stage : String := "uninitialized"
  stages_completed : List String := []
  stage_history : List StageHistory := []
  data_yaml_path : Option String := none
  annot_state : AnnotState := {}
  training_state : TrainingState := {}
  deployment_state : DeploymentState := {}
  artifacts : Artifacts := {}
  experiments : List Experiment := []
  warnings : List String := []
  errors : List String := []
  workflow_progress : List (String × List String) := []
  workflow_artifacts : List (String × List (String × List (String × String))) := []
deriving DecidableEq

/-- The default document `PipelineState()` that pydantic constructs. -/
def initial_pipeline_state : PipelineState := {}

/-- `PipelineState.load`.  The argument encodes what the filesystem
provides: `none` — the state file does not exist; `some none` — the file
exists but `yaml.safe_load` returns `None` (empty document); `some (some
d)` — the file parses to the document `d`. -/
def PipelineState.load : Option (Option PipelineState) → PipelineState
  | none => {}
  | some none => {}
  | some (some d) => d

/-- `PipelineState.complete_stage`. -/
def PipelineState.complete_stage (s : PipelineState) (stage : String) : PipelineState :=
  if stage ∈ s.stages_completed then s
  else { s with stages_completed := s.stages_completed ++ [stage] }

/-- `PipelineState.is_stage_completed`. -/
def PipelineState.is_stage_completed (s : PipelineState) (stage : String) : Bool :=
  s.stages_completed.contains stage

/-- `PipelineState.add_warning`. -/
def PipelineState.add_warning (s : PipelineState) (w : String) : PipelineState :=
  if w ∈ s.warnings then s else { s with warnings := s.warnings ++ [w] }

/-- `PipelineState.add_error`. -/
def PipelineState.add_error (s : PipelineState) (e : String) : PipelineState :=
  if e ∈ s.errors then s else { s with errors := s.errors ++ [e] }

/-- Python dict indexing-with-default used by the workflow helpers. -/
def PipelineState.get_workflow_progress (s : PipelineState) (wid : String) : List String :=
  match s.workflow_progress.find? (fun e => e.1 == wid) with
  | some e => e.2
  | none => []

/-- Insertion-ordered dict update: replace the value at an existing key,
or append a new binding. -/
def dict_set {α : Type*} (d : List (String × α)) (k : String) (v : α) : List (String × α) :=
  if (d.map Prod.fst).contains k then
    d.map (fun e => if e.1 == k then (k, v) else e)
  else d ++ [(k, v)]

/-- `PipelineState.complete_workflow_step`: auto-vivify the workflow entry,
append the step id once, and store artifacts when a non-empty dict is given
(Python truthiness skips `None` and `{}`). -/
def PipelineState.complete_workflow_step (s : PipelineState) (wid sid : String)
    (arts : Option (List (String × String))) : PipelineState :=
  let prog0 := s.get_workflow_progress wid
  let prog1 := if sid ∈ prog0 then prog0 else prog0 ++ [sid]
  let wp := dict_set s.workflow_progress wid prog1
  match arts with
  | none => { s with workflow_progress := wp }
  | some a =>
    if a = [] then { s with workflow_progress := wp }
    else
      let cur := match s.workflow_artifacts.find? (fun e => e.1 == wid) with
        | some e => e.2
        | none => []
      { s with workflow_progress := wp,
               workflow_artifacts := dict_set s.workflow_artifacts wid (dict_set cur sid a) }

/-- `WorkflowStep` of `croak.workflows.executor`. -/
structure WorkflowStep where
  id : String
  name : String
  description : String := ""
  file_path : String := ""
  agent : String := ""
  required : Bool := true
  depends_on : List String := []
  outputs : List String := []
deriving DecidableEq

/-- `Workflow` of `croak.workflows.executor`. -/
structure Workflow where
  id : String
  name : String
  description : String := ""
  agent : String := ""
  version : String := "1.0"
  steps : List WorkflowStep := []
deriving DecidableEq

/-- `Workflow.get_step`: first step with the given id. -/
def Workflow.get_step (w : Workflow) (sid : String) : Option WorkflowStep :=
  w.steps.find? (fun s => s.id == sid)

/-- `Workflow.get_next_step`: first not-yet-completed step whose
dependencies are all completed. -/
def Workflow.get_next_step (w : Workflow) (completed : List String) : Option WorkflowStep :=
  w.steps.find? (fun s => !(completed.contains s.id) && s.depends_on.all completed.contains)

/-- The progress dict returned by `Workflow.get_progress`. -/
structure WorkflowProgress where
  total_steps : ℕ
  completed_steps : ℕ
  remaining_steps : ℕ
  progress_percent : ℚ
  is_complete : Bool
deriving DecidableEq

/-- `Workflow.get_progress`. -/
def Workflow.get_progress (w : Workflow) (completed : List String) : WorkflowProgress :=
  let total := w.steps.length
  let done := (w.steps.filter (fun s => completed.contains s.id)).length
  { total_steps := total
    completed_steps := done
    remaining_steps := total - done
    progress_percent := if 0 < total then (done : ℚ) / total * 100 else 0
    is_complete := done == total }

/-- `WorkflowExecutor.complete_step`, given the already-loaded workflow
definition: unknown step id or an uncompleted dependency raise `ValueError`
(the first unmet dependency is reported, without the source's quote
characters); otherwise the completion is recorded in pipeline state. -/
def WorkflowExecutor.complete_step (w : Workflow) (st : PipelineState) (sid : String)
    (arts : Option (List (String × String))) : Except String PipelineState :=
  match w.get_step sid with
  | none => .error ("Step not found: " ++ sid)
  | some step =>
    match step.depends_on.find? (fun d => !((st.get_workflow_progress w.id).contains d)) with
    | some d => .error ("Dependency not met: " ++ d ++ " must be completed before " ++ sid)
    | none => .ok (st.complete_workflow_step w.id sid arts)

/-- Python-set insertion for the DFS `visited`/`stack` sets (membership is
all that matters; insertion at the head). -/
def set_add (s : List String) (x : String) : List String :=
  if x ∈ s then s else x :: s

/-- The recursive `has_cycle` DFS of `validate_workflow`, with the shared
mutable `visited`/`stack` sets threaded explicitly and a fuel argument
standing in for the call stack (the Python recursion always terminates
because `visited` strictly grows; `dfs_fuel` below over-approximates the
recursion depth, so the fuel never runs out).  The result carries the
decision together with the final `visited` and `stack` contents. -/
def has_cycle_dfs (w : Workflow) : ℕ → String → List String → List String →
    Bool × List String × List String
  | 0, _, v, s => (false, v, s)
  | fuel + 1, x, v, s =>
    let v1 := set_add v x
    let s1 := set_add s x
    match w.get_step x with
    | none => (false, v1, s1.erase x)
    | some step =>
      let r := step.depends_on.foldl (fun acc d =>
        if acc.1 then acc
        else if d ∈ acc.2.1 then
          if d ∈ acc.2.2 then (true, acc.2.1, acc.2.2) else acc
        else has_cycle_dfs w fuel d acc.2.1 acc.2.2) (false, v1, s1)
      if r.1 then r else (false, r.2.1, r.2.2.erase x)

/-- One iteration of the dependency loop inside `has_cycle`
(definitionally the lambda in `has_cycle_dfs`). -/
def dfs_step (w : Workflow) (fuel : ℕ) (acc : Bool × List String × List String)
    (d : String) : Bool × List String × List String :=
  if acc.1 then acc
  else if d ∈ acc.2.1 then
    if d ∈ acc.2.2 then (true, acc.2.1, acc.2.2) else acc
  else has_cycle_dfs w fuel d acc.2.1 acc.2.2

/-- Fuel bound: one unit per step plus one per declared dependency is an
upper bound on the number of distinct ids the DFS can visit. -/
def dfs_fuel (w : Workflow) : ℕ :=
  w.steps.length + (w.steps.map (fun s => s.depends_on.length)).sum + 1

/-- The dependency-existence error messages of `validate_workflow` (source
messages, without the quote characters). -/
def dep_errors (w : Workflow) : List String :=
  (w.steps.map (fun step =>
    (step.depends_on.filter (fun d => !((w.steps.map (fun s => s.id)).contains d))).map
      (fun d => "Step " ++ step.id ++ " depends on non-existent step " ++ d))).flatten

/-- The circular-dependency error of `validate_workflow`: the loop runs
`has_cycle` from every step with fresh sets and reports the first step for
which it returns true, then breaks. -/
def cycle_error (w : Workflow) : List String :=
  match w.steps.find? (fun step => (has_cycle_dfs w (dfs_fuel w) step.id [] []).1) with
  | some step => ["Circular dependency detected involving step " ++ step.id]
  | none => []

/-- The validation dict of `validate_workflow`. -/
structure WorkflowValidation where
  valid : Bool
  errors : List String
  warnings : List String
deriving DecidableEq

/-- `WorkflowExecutor.validate_workflow`, given the already-loaded
workflow; `fex` tells whether a step content file exists on disk. -/
def WorkflowExecutor.validate_workflow (w : Workflow) (fex : String → Bool) :
    WorkflowValidation :=
  let errors := dep_errors w ++ cycle_error w
  let warnings := (w.steps.filter (fun s => s.file_path ≠ "" ∧ ¬ fex s.file_path)).map
    (fun s => "Step " ++ s.id ++ " file not found: " ++ s.file_path)
  { valid := errors.isEmpty, errors := errors, warnings := warnings }

/-- One collected error of contract validation. -/
structure VErrInfo where
  path : List String
  message : String
  value : Option String := none
deriving DecidableEq

/-- The validation result dict of `HandoffValidator.validate` /
`_basic_validate`. -/
structure VResult where
  valid : Bool
  contract : String
  errors : List VErrInfo
  validated_at : String
  note : Option String := none
deriving DecidableEq

/-- `HandoffValidator._basic_validate` (the jsonschema-free path): check
only that every top-level `required` field of the schema is a key of the
payload, and annotate the result. -/
def basic_validate (contract : String) (schema_required : List String)
    (data : List (String × String)) (now : String) : VResult :=
  let errors := (schema_required.filter (fun f => !((data.map Prod.fst).contains f))).map
    (fun f => { path := [f], message := "Required field missing: " ++ f, value := none })
  { valid := errors.isEmpty, contract := contract, errors := errors, validated_at := now,
    note := some "Basic validation only (install jsonschema for full validation)" }

/-- `HandoffValidator.validate`: with the external `jsonschema` library
present its exceptions are modelled by the abstract `jschema_errors`
outcome (empty list — no exception); otherwise the in-repo basic path
runs.  The schema is assumed already resolved by `load_schema` (the claim
concerns payload validation, not schema lookup). -/
def HandoffValidator.validate (has_jsonschema : Bool)
    (jschema_errors : List (String × String) → List VErrInfo)
    (contract : String) (schema_required : List String)
    (data : List (String × String)) (now : String) : VResult :=
  if has_jsonschema then
    let errors := jschema_errors data
    { valid := errors.isEmpty, contract := contract, errors := errors, validated_at := now }
  else basic_validate contract schema_required data now

/-- The payload of a raised `ContractValidationError`: the contract name
and every collected error message (the source renders these into one
string, one indented line per message). -/
structure ContractViolation where
  contract : String
  messages : List String
deriving DecidableEq

/-- `HandoffValidator.create_handoff`: validate first and raise with all
collected messages before touching the filesystem; only on success create
the handoffs directory and write the timestamped document. -/
def HandoffValidator.create_handoff (has_jsonschema : Bool)
    (jschema_errors : List (String × String) → List VErrInfo)
    (contract from_agent to_agent : String) (schema_required : List String)
    (data : List (String × String)) (now timestamp handoffs_dir : String)
    (fs : FS) : FS × Except ContractViolation String :=
  let result := HandoffValidator.validate has_jsonschema jschema_errors contract
    schema_required data now
  if result.valid = false then
    (fs, .error { contract := contract, messages := result.errors.map (fun e => e.message) })
  else
    let fs1 := fs_mkdir fs handoffs_dir
    let filename := from_agent ++ "-to-" ++ to_agent ++ "-" ++ timestamp ++ ".yaml"
    let content := "contract: " ++ contract
    (fs_write fs1 (handoffs_dir ++ "/" ++ filename) content, .ok filename)

/-- Two-step workflow used by the C8 witness: B depends on A. -/
def wf_ab : Workflow :=
  { id := "annotation-workflow", name := "annotation-workflow",
    steps := [ { id := "A", name := "A" },
               { id := "B", name := "B", depends_on := ["A"] } ] }

/-- Two-step cyclic workflow used by the C9 witness. -/
def wf_cycle : Workflow :=
  { id := "wfc", name := "wfc",
    steps := [ { id := "A", name := "A", depends_on := ["B"] },
               { id := "B", name := "B", depends_on := ["A"] } ] }

/-- Three-step workflow for the C9 counterexample: C (listed first) merely
depends on A, while the actual cycle is A <-> B. -/
def wf_cab : Workflow :=
  { id := "wf", name := "wf",
    steps := [ { id := "C", name := "C", depends_on := ["A"] },
               { id := "A", name := "A", depends_on := ["B"] },
               { id := "B", name := "B", depends_on := ["A"] } ] }


lemma groups_multiset_cons (k : Int) (gp : List ImgPair) (rest : List (Int × List ImgPair)) :
    groups_multiset ((k, gp) :: rest) = (gp : Multiset ImgPair) + groups_multiset rest := by
  simp [groups_multiset]

lemma add_to_groups_multiset (gs : List (Int × List ImgPair)) (k : Int) (p : ImgPair) :
    groups_multiset (add_to_groups gs k p) = groups_multiset gs + {p} := by
  induction gs with
  | nil => simp [add_to_groups, groups_multiset]
  | cons g rest ih =>
    obtain ⟨k0, ps⟩ := g
    by_cases h : k0 = k
    · rw [add_to_groups, if_pos h, groups_multiset_cons, groups_multiset_cons,
        ← Multiset.coe_add, Multiset.coe_singleton]
      abel
    · rw [add_to_groups, if_neg h, groups_multiset_cons, groups_multiset_cons, ih, add_assoc]

lemma group_by_class_aux_multiset (pairs : List ImgPair) :
    ∀ gs : List (Int × List ImgPair),
      groups_multiset (pairs.foldl (fun gs p => add_to_groups gs (strata_key p) p) gs)
        = groups_multiset gs + (pairs : Multiset ImgPair) := by
  induction pairs with
  | nil => intro gs; simp
  | cons p rest ih =>
    intro gs
    simp only [List.foldl_cons]
    rw [ih, add_to_groups_multiset, ← Multiset.cons_coe, ← Multiset.singleton_add]
    abel

lemma group_by_class_multiset (pairs : List ImgPair) :
    groups_multiset (group_by_class pairs) = (pairs : Multiset ImgPair) := by
  have h := group_by_class_aux_multiset pairs []
  simpa [group_by_class, groups_multiset] using h

lemma py_trunc_nonneg {q : ℚ} (h : 0 ≤ q) : 0 ≤ py_trunc q := by
  unfold py_trunc
  rw [if_neg (not_lt.2 h)]
  exact Int.floor_nonneg.2 h

lemma py_slice_index_zero (n : ℕ) : py_slice_index n 0 = 0 := by
  simp [py_slice_index]

lemma py_slice_index_of_nonneg {i : Int} (n : ℕ) (h : 0 ≤ i) :
    py_slice_index n i = min i.toNat n := by
  simp [py_slice_index, not_lt.2 h]

lemma py_slice_index_len (n : ℕ) : py_slice_index n (n : Int) = n := by
  simp [py_slice_index]

/-- The three consecutive Python slices `a[:i]`, `a[i:j]`, `a[j:]`
reassemble the list whenever `0 ≤ i ≤ j`. -/
lemma py_slice_append {α : Type*} (l : List α) (i j : Int)
    (h0 : 0 ≤ i) (hij : i ≤ j) :
    py_slice l 0 i ++ py_slice l i j ++ py_slice l j (l.length : Int) = l := by
  have h0j : 0 ≤ j := le_trans h0 hij
  have hAB : min i.toNat l.length ≤ min j.toNat l.length :=
    min_le_min (Int.toNat_le_toNat hij) le_rfl
  simp only [py_slice, py_slice_index_zero, py_slice_index_len,
    py_slice_index_of_nonneg _ h0, py_slice_index_of_nonneg _ h0j,
    List.drop_zero, List.take_length]
  have h1 : l.take (min i.toNat l.length) ++ (l.take (min j.toNat l.length)).drop
      (min i.toNat l.length) = l.take (min j.toNat l.length) := by
    have h2 : (l.take (min j.toNat l.length)).take (min i.toNat l.length)
        = l.take (min i.toNat l.length) := by
      rw [List.take_take, min_eq_left hAB]
    calc l.take (min i.toNat l.length) ++ (l.take (min j.toNat l.length)).drop
          (min i.toNat l.length)
        = (l.take (min j.toNat l.length)).take (min i.toNat l.length)
            ++ (l.take (min j.toNat l.length)).drop (min i.toNat l.length) := by rw [h2]
      _ = l.take (min j.toNat l.length) := List.take_append_drop _ _
  rw [h1, List.take_append_drop]

/-- Coercion form of `py_slice_append`. -/
lemma three_slices_multiset (l : List ImgPair) (i j : Int) (h0 : 0 ≤ i) (hij : i ≤ j) :
    (py_slice l 0 i : Multiset ImgPair) + (py_slice l i j : Multiset ImgPair)
      + (py_slice l j (l.length : Int) : Multiset ImgPair) = (l : Multiset ImgPair) := by
  rw [Multiset.coe_add, Multiset.coe_add, py_slice_append l i j h0 hij]

lemma random_split_multiset (sh : Shuffle) (hsh : ∀ i l, (sh i l).Perm l)
    (pairs : List ImgPair) (tr vr : ℚ) (htr : 0 ≤ tr) (hvr : 0 ≤ vr) :
    ((random_split sh pairs tr vr).1 : Multiset ImgPair)
      + ((random_split sh pairs tr vr).2.1 : Multiset ImgPair)
      + ((random_split sh pairs tr vr).2.2 : Multiset ImgPair)
      = (pairs : Multiset ImgPair) := by
  have hte : (0 : Int) ≤ py_trunc (((sh 0 pairs).length : ℚ) * tr) :=
    py_trunc_nonneg (mul_nonneg (by positivity) htr)
  have hve : py_trunc (((sh 0 pairs).length : ℚ) * tr)
      ≤ py_trunc (((sh 0 pairs).length : ℚ) * tr) + py_trunc (((sh 0 pairs).length : ℚ) * vr) :=
    le_add_of_nonneg_right (py_trunc_nonneg (mul_nonneg (by positivity) hvr))
  simp only [random_split]
  rw [three_slices_multiset _ _ _ hte hve]
  exact Multiset.coe_eq_coe.2 (hsh 0 pairs)

lemma strat_parts_multiset (sh : Shuffle) (hsh : ∀ i l, (sh i l).Perm l)
    (tr vr : ℚ) (htr : 0 ≤ tr) (hvr : 0 ≤ vr) :
    ∀ (gs : List (Int × List ImgPair)) (i : ℕ),
      ((strat_parts sh tr vr gs i).1 : Multiset ImgPair)
        + ((strat_parts sh tr vr gs i).2.1 : Multiset ImgPair)
        + ((strat_parts sh tr vr gs i).2.2 : Multiset ImgPair)
        = groups_multiset gs := by
  intro gs
  induction gs with
  | nil => intro i; simp [strat_parts, groups_multiset]
  | cons g rest ih =>
    intro i
    obtain ⟨k, gp⟩ := g
    have hte : (0 : Int) ≤ py_trunc (((sh i gp).length : ℚ) * tr) :=
      py_trunc_nonneg (mul_nonneg (by positivity) htr)
    have hve : py_trunc (((sh i gp).length : ℚ) * tr)
        ≤ py_trunc (((sh i gp).length : ℚ) * tr) + py_trunc (((sh i gp).length : ℚ) * vr) :=
      le_add_of_nonneg_right (py_trunc_nonneg (mul_nonneg (by positivity) hvr))
    have hg : (py_slice (sh i gp) 0 (py_trunc (((sh i gp).length : ℚ) * tr)) : Multiset ImgPair)
        + (py_slice (sh i gp) (py_trunc (((sh i gp).length : ℚ) * tr))
            (py_trunc (((sh i gp).length : ℚ) * tr) + py_trunc (((sh i gp).length : ℚ) * vr))
            : Multiset ImgPair)
        + (py_slice (sh i gp)
            (py_trunc (((sh i gp).length : ℚ) * tr) + py_trunc (((sh i gp).length : ℚ) * vr))
            ((sh i gp).length : Int) : Multiset ImgPair)
        = (gp : Multiset ImgPair) := by
      rw [three_slices_multiset _ _ _ hte hve]
      exact Multiset.coe_eq_coe.2 (hsh i gp)
    have hr := ih (i + 1)
    simp only [strat_parts, groups_multiset_cons]
    simp only [← Multiset.coe_add]
    rw [← hg, ← hr]
    abel

lemma stratified_split_multiset (sh : Shuffle) (hsh : ∀ i l, (sh i l).Perm l)
    (pairs : List ImgPair) (tr vr : ℚ) (htr : 0 ≤ tr) (hvr : 0 ≤ vr) :
    ((stratified_split sh pairs tr vr).1 : Multiset ImgPair)
      + ((stratified_split sh pairs tr vr).2.1 : Multiset ImgPair)
      + ((stratified_split sh pairs tr vr).2.2 : Multiset ImgPair)
      = (pairs : Multiset ImgPair) := by
  have h := strat_parts_multiset sh hsh tr vr htr hvr (group_by_class pairs) 0
  simp only [stratified_split]
  rw [Multiset.coe_eq_coe.2 (hsh (group_by_class pairs).length _),
    Multiset.coe_eq_coe.2 (hsh ((group_by_class pairs).length + 1) _),
    Multiset.coe_eq_coe.2 (hsh ((group_by_class pairs).length + 2) _),
    h, group_by_class_multiset]

/-- A triple of lists whose combined multiset equals that of `pairs` has
lengths summing to `pairs.length` and, when `pairs` has no duplicates, is
pairwise disjoint. -/
lemma partition_of_multiset_eq {t v e pairs : List ImgPair}
    (h : (t : Multiset ImgPair) + (v : Multiset ImgPair) + (e : Multiset ImgPair)
          = (pairs : Multiset ImgPair))
    (hnd : pairs.Nodup) :
    t.length + v.length + e.length = pairs.length
      ∧ t.Disjoint v ∧ t.Disjoint e ∧ v.Disjoint e := by
  have hperm : (t ++ (v ++ e)).Perm pairs := by
    rw [← Multiset.coe_eq_coe, ← Multiset.coe_add, ← Multiset.coe_add, ← add_assoc, h]
  have hlen := hperm.length_eq
  simp only [List.length_append] at hlen
  have hnod : (t ++ (v ++ e)).Nodup := hperm.symm.nodup hnd
  rw [List.nodup_append] at hnod
  obtain ⟨ht, hve, htve⟩ := hnod
  rw [List.nodup_append] at hve
  obtain ⟨hv, he, hvde⟩ := hve
  refine ⟨by omega, ?_, ?_, hvde⟩
  · intro x hx hxv
    exact htve hx (List.mem_append_left _ hxv)
  · intro x hx hxe
    exact htve hx (List.mem_append_right _ hxe)

/-- C1: for every dataset of distinct image/label pairs and every ratio
triple of fractions (each in `[0,1]` as documented by the source) whose sum
is within `0.001` of `1.0`, both `_random_split` and `_stratified_split`
return three lists whose lengths sum to exactly the number of pairs and
which are pairwise disjoint, for every behaviour of the seeded shuffle. -/
theorem split_partition (sh : Shuffle) (hsh : ∀ i l, (sh i l).Perm l)
    (pairs : List ImgPair) (tr vr te : ℚ)
    (htr : 0 ≤ tr) (hvr : 0 ≤ vr) (hte : 0 ≤ te)
    (hsum : |tr + vr + te - 1| ≤ 1/1000) (hnd : pairs.Nodup) :
    ((random_split sh pairs tr vr).1.length + (random_split sh pairs tr vr).2.1.length
        + (random_split sh pairs tr vr).2.2.length = pairs.length
      ∧ (random_split sh pairs tr vr).1.Disjoint (random_split sh pairs tr vr).2.1
      ∧ (random_split sh pairs tr vr).1.Disjoint (random_split sh pairs tr vr).2.2
      ∧ (random_split sh pairs tr vr).2.1.Disjoint (random_split sh pairs tr vr).2.2)
    ∧ ((stratified_split sh pairs tr vr).1.length
          + (stratified_split sh pairs tr vr).2.1.length
          + (stratified_split sh pairs tr vr).2.2.length = pairs.length
      ∧ (stratified_split sh pairs tr vr).1.Disjoint (stratified_split sh pairs tr vr).2.1
      ∧ (stratified_split sh pairs tr vr).1.Disjoint (stratified_split sh pairs tr vr).2.2
      ∧ (stratified_split sh pairs tr vr).2.1.Disjoint (stratified_split sh pairs tr vr).2.2) :=
  ⟨partition_of_multiset_eq (random_split_multiset sh hsh pairs tr vr htr hvr) hnd,
   partition_of_multiset_eq (stratified_split_multiset sh hsh pairs tr vr htr hvr) hnd⟩

/-- Witness for C1 at a concrete dataset of 12 pairs with the default
ratios (0.8, 0.15, 0.05) and the identity permutation as shuffle. -/
theorem split_partition_witness :
    ((random_split (fun _ l => l) c1_pairs (4/5) (3/20)).1.length
      + (random_split (fun _ l => l) c1_pairs (4/5) (3/20)).2.1.length
      + (random_split (fun _ l => l) c1_pairs (4/5) (3/20)).2.2.length = c1_pairs.length)
    ∧ ((stratified_split (fun _ l => l) c1_pairs (4/5) (3/20)).1.length
      + (stratified_split (fun _ l => l) c1_pairs (4/5) (3/20)).2.1.length
      + (stratified_split (fun _ l => l) c1_pairs (4/5) (3/20)).2.2.length
        = c1_pairs.length) := by
  obtain ⟨⟨h1, _⟩, ⟨h2, _⟩⟩ :=
    split_partition (fun _ l => l) (fun _ l => List.Perm.refl l) c1_pairs
      (4/5) (3/20) (1/20)
      (by norm_num) (by norm_num) (by norm_num) (by norm_num) (by decide)
  exact ⟨h1, h2⟩

lemma mem_set_insert (s : List Int) (k a : Int) :
    a ∈ set_insert s k ↔ a ∈ s ∨ a = k := by
  by_cases h : k ∈ s
  · simp only [set_insert, if_pos h]
    constructor
    · exact Or.inl
    · rintro (ha | rfl)
      · exact ha
      · exact h
  · simp [set_insert, if_neg h]

lemma nodup_set_insert (s : List Int) (k : Int) (h : s.Nodup) :
    (set_insert s k).Nodup := by
  by_cases hk : k ∈ s
  · simpa [set_insert, if_pos hk] using h
  · simp [set_insert, if_neg hk, List.nodup_append, h, hk, List.disjoint_singleton]

lemma mem_foldl_set_insert (l : List Int) :
    ∀ (s : List Int) (a : Int), a ∈ l.foldl set_insert s ↔ a ∈ s ∨ a ∈ l := by
  induction l with
  | nil => intro s a; simp
  | cons k rest ih =>
    intro s a
    simp only [List.foldl_cons, ih, mem_set_insert, List.mem_cons]
    tauto

lemma nodup_foldl_set_insert (l : List Int) :
    ∀ s : List Int, s.Nodup → (l.foldl set_insert s).Nodup := by
  induction l with
  | nil => intro s hs; simpa
  | cons k rest ih => intro s hs; exact ih _ (nodup_set_insert s k hs)

lemma mem_class_ids_list (pairs : List ImgPair) (k : Int) :
    k ∈ class_ids_list pairs ↔ ∃ p ∈ pairs.take 100, k ∈ collect_file_ids p.label := by
  have haux : ∀ (l : List ImgPair) (s : List Int),
      (k ∈ l.foldl (fun s p => (collect_file_ids p.label).foldl set_insert s) s
        ↔ k ∈ s ∨ ∃ p ∈ l, k ∈ collect_file_ids p.label) := by
    intro l
    induction l with
    | nil => intro s; simp
    | cons p rest ih =>
      intro s
      simp only [List.foldl_cons, ih, mem_foldl_set_insert, List.mem_cons]
      constructor
      · rintro ((h | h) | ⟨q, hq, hk⟩)
        · exact Or.inl h
        · exact Or.inr ⟨p, Or.inl rfl, h⟩
        · exact Or.inr ⟨q, Or.inr hq, hk⟩
      · rintro (h | ⟨q, rfl | hq, hk⟩)
        · exact Or.inl (Or.inl h)
        · exact Or.inl (Or.inr hk)
        · exact Or.inr ⟨q, hq, hk⟩
  simpa using haux (pairs.take 100) []

lemma nodup_class_ids_list (pairs : List ImgPair) : (class_ids_list pairs).Nodup := by
  have haux : ∀ (l : List ImgPair) (s : List Int), s.Nodup →
      (l.foldl (fun s p => (collect_file_ids p.label).foldl set_insert s) s).Nodup := by
    intro l
    induction l with
    | nil => intro s hs; simpa
    | cons p rest ih =>
      intro s hs
      exact ih _ (nodup_foldl_set_insert _ _ hs)
  exact haux (pairs.take 100) [] List.nodup_nil

lemma insert_sorted_perm (k : Int) (l : List Int) :
    (insert_sorted k l).Perm (k :: l) := by
  induction l with
  | nil => simp [insert_sorted]
  | cons x xs ih =>
    by_cases h : k ≤ x
    · simp [insert_sorted, if_pos h]
    · rw [insert_sorted, if_neg h]
      exact (ih.cons x).trans (List.Perm.swap k x xs)

lemma sort_ids_perm (l : List Int) : (sort_ids l).Perm l := by
  induction l with
  | nil => simp [sort_ids]
  | cons x xs ih =>
    exact (insert_sorted_perm x (sort_ids xs)).trans (ih.cons x)

lemma insert_sorted_sorted (k : Int) (l : List Int) (h : l.Sorted (· ≤ ·)) :
    (insert_sorted k l).Sorted (· ≤ ·) := by
  induction l with
  | nil => simp [insert_sorted]
  | cons x xs ih =>
    rw [List.sorted_cons] at h
    obtain ⟨hx, hxs⟩ := h
    by_cases hk : k ≤ x
    · rw [insert_sorted, if_pos hk, List.sorted_cons]
      refine ⟨?_, by rw [List.sorted_cons]; exact ⟨hx, hxs⟩⟩
      intro b hb
      rcases List.mem_cons.1 hb with rfl | hb
      · exact hk
      · exact le_trans hk (hx b hb)
    · rw [insert_sorted, if_neg hk, List.sorted_cons]
      refine ⟨?_, ih hxs⟩
      intro b hb
      have hb2 := (insert_sorted_perm k xs).mem_iff.1 hb
      rcases List.mem_cons.1 hb2 with rfl | hb2
      · exact le_of_not_le hk
      · exact hx b hb2

lemma sort_ids_sorted (l : List Int) : (sort_ids l).Sorted (· ≤ ·) := by
  induction l with
  | nil => simp [sort_ids]
  | cons x xs ih => exact insert_sorted_sorted x (sort_ids xs) ih

/-- C4 (amended form): with no supplied, configured or manifest class
list, inference returns `class_{id}` names for the strictly ascending list
of all integer class ids collected from *every* line (up to each file's
first malformed line) of up to 100 sampled label files. -/
theorem infer_class_names_all_lines (pairs : List ImgPair) :
    ∃ ids : List Int, List.Sorted (· < ·) ids
      ∧ (∀ k, k ∈ ids ↔ ∃ p ∈ pairs.take 100, k ∈ collect_file_ids p.label)
      ∧ infer_class_names none none pairs = ids.map (fun i => "class_" ++ toString i) := by
  refine ⟨sort_ids (class_ids_list pairs), ?_, ?_, rfl⟩
  · have hle := sort_ids_sorted (class_ids_list pairs)
    have hnd : (sort_ids (class_ids_list pairs)).Nodup :=
      (sort_ids_perm _).nodup_iff.2 (nodup_class_ids_list pairs)
    exact List.Sorted.lt_of_le hle hnd
  · intro k
    rw [(sort_ids_perm _).mem_iff, mem_class_ids_list]

/-- C4 counterexample: a label file whose first line has class 0 and whose
second line has class 5.  The source collects ids from every line and
returns two names, while the claim ("reads only the first label line")
predicts just `class_0`. -/
theorem infer_class_names_counterexample :
    infer_class_names none none
        [⟨"img_a", ["0 0.5 0.5 0.1 0.1", "5 0.5 0.5 0.1 0.1"]⟩]
      = ["class_0", "class_5"]
    ∧ infer_first_line_only
        [⟨"img_a", ["0 0.5 0.5 0.1 0.1", "5 0.5 0.5 0.1 0.1"]⟩]
      = ["class_0"]
    ∧ (["class_0", "class_5"] : List String) ≠ ["class_0"] := by
  refine ⟨by decide, by decide, by decide⟩

lemma py_slice_length {α : Type*} (l : List α) {i j : Int} (h0 : 0 ≤ i) (h0j : 0 ≤ j) :
    (py_slice l i j).length = min j.toNat l.length - min i.toNat l.length := by
  simp only [py_slice, py_slice_index_of_nonneg _ h0, py_slice_index_of_nonneg _ h0j,
    List.length_drop, List.length_take]
  rw [min_assoc, min_self]

lemma strat_parts_lengths (sh : Shuffle) (hsh : ∀ i l, (sh i l).Perm l)
    (tr vr : ℚ) (htr : 0 ≤ tr) (hvr : 0 ≤ vr) :
    ∀ (gs : List (Int × List ImgPair)) (i : ℕ),
      (strat_parts sh tr vr gs i).1.length
          = (gs.map (fun g => train_cut g.2.length tr)).sum
        ∧ (strat_parts sh tr vr gs i).2.1.length
          = (gs.map (fun g => val_cut g.2.length tr vr - train_cut g.2.length tr)).sum
        ∧ (strat_parts sh tr vr gs i).2.2.length
          = (gs.map (fun g => g.2.length - val_cut g.2.length tr vr)).sum := by
  intro gs
  induction gs with
  | nil => intro i; simp [strat_parts]
  | cons g rest ih =>
    intro i
    obtain ⟨k, gp⟩ := g
    have hlen : (sh i gp).length = gp.length := (hsh i gp).length_eq
    have hte : (0 : Int) ≤ py_trunc (((sh i gp).length : ℚ) * tr) :=
      py_trunc_nonneg (mul_nonneg (by positivity) htr)
    have hve : (0 : Int)
        ≤ py_trunc (((sh i gp).length : ℚ) * tr) + py_trunc (((sh i gp).length : ℚ) * vr) :=
      add_nonneg hte (py_trunc_nonneg (mul_nonneg (by positivity) hvr))
    obtain ⟨ih1, ih2, ih3⟩ := ih (i + 1)
    refine ⟨?_, ?_, ?_⟩
    · simp only [strat_parts, List.length_append, List.map_cons, List.sum_cons, ih1]
      rw [py_slice_length (sh i gp) le_rfl hte]
      simp only [Int.toNat_zero, Nat.zero_min, Nat.sub_zero, hlen, train_cut]
    · simp only [strat_parts, List.length_append, List.map_cons, List.sum_cons, ih2]
      rw [py_slice_length (sh i gp) hte hve]
      simp only [hlen, train_cut, val_cut]
    · simp only [strat_parts, List.length_append, List.map_cons, List.sum_cons, ih3]
      rw [py_slice_length (sh i gp) hve (by positivity)]
      simp only [Int.toNat_natCast, min_self, hlen, val_cut]

lemma stratified_split_lengths (sh : Shuffle) (hsh : ∀ i l, (sh i l).Perm l)
    (pairs : List ImgPair) (tr vr : ℚ) (htr : 0 ≤ tr) (hvr : 0 ≤ vr) :
    (stratified_split sh pairs tr vr).1.length
        = ((group_by_class pairs).map (fun g => train_cut g.2.length tr)).sum
      ∧ (stratified_split sh pairs tr vr).2.1.length
        = ((group_by_class pairs).map
            (fun g => val_cut g.2.length tr vr - train_cut g.2.length tr)).sum
      ∧ (stratified_split sh pairs tr vr).2.2.length
        = ((group_by_class pairs).map (fun g => g.2.length - val_cut g.2.length tr vr)).sum := by
  obtain ⟨h1, h2, h3⟩ := strat_parts_lengths sh hsh tr vr htr hvr (group_by_class pairs) 0
  refine ⟨?_, ?_, ?_⟩
  · simp only [stratified_split]
    rw [(hsh _ _).length_eq, h1]
  · simp only [stratified_split]
    rw [(hsh _ _).length_eq, h2]
  · simp only [stratified_split]
    rw [(hsh _ _).length_eq, h3]

lemma stratified_split_lengths_sum (sh : Shuffle) (hsh : ∀ i l, (sh i l).Perm l)
    (pairs : List ImgPair) (tr vr : ℚ) (htr : 0 ≤ tr) (hvr : 0 ≤ vr) :
    (stratified_split sh pairs tr vr).1.length
        = (((group_by_class pairs).map (fun g => g.2.length)).map
            (fun n => train_cut n tr)).sum
      ∧ (stratified_split sh pairs tr vr).2.1.length
        = (((group_by_class pairs).map (fun g => g.2.length)).map
            (fun n => val_cut n tr vr - train_cut n tr)).sum
      ∧ (stratified_split sh pairs tr vr).2.2.length
        = (((group_by_class pairs).map (fun g => g.2.length)).map
            (fun n => n - val_cut n tr vr)).sum := by
  obtain ⟨h1, h2, h3⟩ := stratified_split_lengths sh hsh pairs tr vr htr hvr
  refine ⟨?_, ?_, ?_⟩
  · rw [List.map_map]; exact h1
  · rw [List.map_map]; exact h2
  · rw [List.map_map]; exact h3

lemma c3_group_lengths :
    (group_by_class c3_pairs).map (fun g => g.2.length) = [34, 33, 33] := by decide

lemma train_cut_34 : train_cut 34 (4/5) = 27 := by
  rw [train_cut, py_trunc, if_neg (by norm_num)]
  norm_num
  decide

lemma train_cut_33 : train_cut 33 (4/5) = 26 := by
  rw [train_cut, py_trunc, if_neg (by norm_num)]
  norm_num
  decide

lemma val_cut_34 : val_cut 34 (4/5) (3/20) = 32 := by
  rw [val_cut, py_trunc, py_trunc, if_neg (by norm_num), if_neg (by norm_num)]
  norm_num
  decide

lemma val_cut_33 : val_cut 33 (4/5) (3/20) = 30 := by
  rw [val_cut, py_trunc, py_trunc, if_neg (by norm_num), if_neg (by norm_num)]
  norm_num
  decide

/-- Split sizes of the 100-pair, 3-balanced-class scenario: the class
groups have sizes 34/33/33, and `int(34*0.8)=27`, `int(33*0.8)=26`,
`int(34*0.15)=5`, `int(33*0.15)=4` give 79/13/8 — for every seed. -/
lemma c3_sizes (sh : Shuffle) (hsh : ∀ i l, (sh i l).Perm l) :
    (stratified_split sh c3_pairs (4/5) (3/20)).1.length = 79
      ∧ (stratified_split sh c3_pairs (4/5) (3/20)).2.1.length = 13
      ∧ (stratified_split sh c3_pairs (4/5) (3/20)).2.2.length = 8 := by
  obtain ⟨h1, h2, h3⟩ :=
    stratified_split_lengths_sum sh hsh c3_pairs (4/5) (3/20) (by norm_num) (by norm_num)
  rw [c3_group_lengths] at h1 h2 h3
  simp only [List.map_cons, List.map_nil, List.sum_cons, List.sum_nil,
    train_cut_34, train_cut_33, val_cut_34, val_cut_33] at h1 h2 h3
  exact ⟨h1, h2, h3⟩

/-- C3 (amended form): the end-to-end scenario — 100 paired images over 3
balanced classes, ratios (0.8, 0.15, 0.05), stratify on — yields split
sizes 79/13/8 (not 80/15/5: the class groups of sizes 34/33/33 are sliced
with truncation per group), summing to exactly 100, and a manifest with 3
inferred classes; this holds for every behaviour of the seeded shuffle, in
particular for seed 42. -/
theorem split_scenario_3classes (sh : Shuffle) (hsh : ∀ i l, (sh i l).Perm l) :
    (DatasetSplitter.split sh fs0 c3_pairs (4/5) (3/20) (1/20) 42 true none none none).2
      = Except.ok c3_stats
    ∧ c3_stats.train + c3_stats.val + c3_stats.test = 100 := by
  obtain ⟨ht, hv, he⟩ := c3_sizes sh hsh
  have hnames : infer_class_names none none c3_pairs = ["class_0", "class_1", "class_2"] := by
    decide
  have hcond1 : ¬((1 : ℚ)/1000 < |4/5 + 3/20 + 1/20 - 1|) := by
    rw [show (4/5 : ℚ) + 3/20 + 1/20 - 1 = 0 from by norm_num, abs_zero]
    norm_num
  have hcond2 : ¬(c3_pairs = []) := by decide
  have hcond3 : ((true : Bool) = true) ∧ 10 < c3_pairs.length := ⟨rfl, by decide⟩
  refine ⟨?_, rfl⟩
  simp only [DatasetSplitter.split, if_neg hcond1, if_neg hcond2, if_pos hcond3, hnames,
    Except.ok.injEq, SplitStats.mk.injEq, c3_stats]
  exact ⟨ht, hv, he, by decide⟩

/-- Witness for C3 at the identity shuffle. -/
theorem split_scenario_3classes_witness :
    (DatasetSplitter.split (fun _ l => l) fs0 c3_pairs (4/5) (3/20) (1/20) 42 true
        none none none).2 = Except.ok c3_stats :=
  (split_scenario_3classes (fun _ l => l) (fun _ l => List.Perm.refl l)).1

/-- C3 counterexample: the claimed 80/15/5 sizes are wrong for the
stratified mode on this scenario; the code produces 79/13/8 (shown here at
the identity permutation; by the amended theorem the sizes are the same
for every shuffle behaviour, hence for seed 42). -/
theorem split_scenario_counterexample :
    ((stratified_split (fun _ l => l) c3_pairs (4/5) (3/20)).1.length = 79
      ∧ (stratified_split (fun _ l => l) c3_pairs (4/5) (3/20)).2.1.length = 13
      ∧ (stratified_split (fun _ l => l) c3_pairs (4/5) (3/20)).2.2.length = 8)
    ∧ ¬((stratified_split (fun _ l => l) c3_pairs (4/5) (3/20)).1.length = 80
      ∧ (stratified_split (fun _ l => l) c3_pairs (4/5) (3/20)).2.1.length = 15
      ∧ (stratified_split (fun _ l => l) c3_pairs (4/5) (3/20)).2.2.length = 5) := by
  obtain ⟨ht, hv, he⟩ := c3_sizes (fun _ l => l) (fun _ l => List.Perm.refl l)
  refine ⟨⟨ht, hv, he⟩, ?_⟩
  rintro ⟨h80, _, _⟩
  rw [ht] at h80
  exact absurd h80 (by norm_num)

/-- C7: ratios whose sum is off by more than 0.001 make `split` raise the
ratio-validation error before any filesystem mutation: the returned
filesystem equals the input one (no directory creation, no copies, no
manifest write). -/
theorem split_ratio_rejection (sh : Shuffle) (fs : FS) (pairs : List ImgPair)
    (tr vr te : ℚ) (seed : ℕ) (strat : Bool) (cn cc mn : Option (List String))
    (h : 1/1000 < |tr + vr + te - 1|) :
    (DatasetSplitter.split sh fs pairs tr vr te seed strat cn cc mn).1 = fs
      ∧ (DatasetSplitter.split sh fs pairs tr vr te seed strat cn cc mn).2
        = Except.error "Ratios must sum to 1.0" := by
  rw [DatasetSplitter.split.eq_def, if_pos h]
  exact ⟨rfl, rfl⟩

/-- Witness for C7 at the 0.5/0.5/0.5 ratio triple of the spec. -/
theorem split_ratio_rejection_witness :
    (DatasetSplitter.split (fun _ l => l) fs0 c1_pairs (1/2) (1/2) (1/2) 42 true
        none none none).1 = fs0
      ∧ (DatasetSplitter.split (fun _ l => l) fs0 c1_pairs (1/2) (1/2) (1/2) 42 true
        none none none).2 = Except.error "Ratios must sum to 1.0" :=
  split_ratio_rejection (fun _ l => l) fs0 c1_pairs (1/2) (1/2) (1/2) 42 true
    none none none (by
      rw [show (1/2 : ℚ) + 1/2 + 1/2 - 1 = 1/2 from by norm_num,
        abs_of_pos (by norm_num : (0:ℚ) < 1/2)]
      norm_num)

lemma run_vops_aux (ops : List VOp) :
    ∀ r : ValidationResult,
      (ops.foldl apply_vop r).errors
          = r.errors ++ ops.filterMap (fun o => match o with
              | VOp.err m => some m
              | VOp.warn _ => none)
        ∧ (ops.foldl apply_vop r).passed = (r.passed && !ops.any vop_is_err) := by
  induction ops with
  | nil => intro r; simp
  | cons o rest ih =>
    intro r
    obtain ⟨ihe, ihp⟩ := ih (apply_vop r o)
    rw [List.foldl_cons]
    cases o with
    | warn m =>
      refine ⟨?_, ?_⟩
      · rw [ihe]
        simp [apply_vop, ValidationResult.add_warning, vop_is_err]
      · rw [ihp]
        simp [apply_vop, ValidationResult.add_warning, vop_is_err]
    | err m =>
      refine ⟨?_, ?_⟩
      · rw [ihe]
        simp [apply_vop, ValidationResult.add_error, vop_is_err]
      · rw [ihp]
        simp [apply_vop, ValidationResult.add_error, vop_is_err]

/-- C5: starting from a fresh `ValidationResult`, after any sequence of
`add_warning`/`add_error` calls, `passed` holds exactly when the errors
list is empty, exactly when no `add_error` call occurred; and once
`passed` is false it stays false under any further calls. -/
theorem validation_result_passed (ops : List VOp) :
    ((run_vops ops).passed = true ↔ (run_vops ops).errors = [])
      ∧ ((run_vops ops).passed = true ↔ ∀ m, VOp.err m ∉ ops)
      ∧ (∀ more : List VOp,
          (run_vops ops).passed = false → (run_vops (ops ++ more)).passed = false) := by
  have hpassed : ∀ l : List VOp, (run_vops l).passed = !l.any vop_is_err := by
    intro l
    obtain ⟨_, hp⟩ := run_vops_aux l init_validation_result
    rw [run_vops, hp]
    rfl
  have herrors : (run_vops ops).errors
      = ops.filterMap (fun o => match o with
          | VOp.err m => some m
          | VOp.warn _ => none) := by
    obtain ⟨he, _⟩ := run_vops_aux ops init_validation_result
    rw [run_vops, he]
    rfl
  refine ⟨?_, ?_, ?_⟩
  · rw [hpassed, herrors, Bool.not_eq_true', List.any_eq_false, List.filterMap_eq_nil_iff]
    constructor
    · intro h a ha
      cases a with
      | warn m => rfl
      | err m => exact absurd (h (VOp.err m) ha) (by simp [vop_is_err])
    · intro h a ha
      cases a with
      | warn m => simp [vop_is_err]
      | err m => exact absurd (h (VOp.err m) ha) (by simp)
  · rw [hpassed, Bool.not_eq_true', List.any_eq_false]
    constructor
    · intro h m hm
      exact absurd (h (VOp.err m) hm) (by simp [vop_is_err])
    · intro h a ha
      cases a with
      | warn m => simp [vop_is_err]
      | err m => exact absurd ha (h m)
  · intro more hfalse
    rw [hpassed] at hfalse
    have hany : ops.any vop_is_err = true := by simpa using hfalse
    rw [hpassed, List.any_append, hany]
    simp

/-- Witness for C5: one error then one warning. -/
theorem validation_result_passed_witness :
    (run_vops [VOp.err "bad"]).passed = false
      ∧ (run_vops ([VOp.err "bad"] ++ [VOp.warn "note"])).passed = false := by
  have h := validation_result_passed [VOp.err "bad"]
  have h1 : (run_vops [VOp.err "bad"]).passed = false := by
    rw [Bool.eq_false_iff]
    intro hp
    exact (h.2.1.mp hp "bad") (by decide)
  exact ⟨h1, h.2.2 [VOp.warn "note"] h1⟩

lemma complete_stage_count_step (st : PipelineState) (n : String)
    (hc : st.stages_completed.count n ≤ 1) :
    (st.complete_stage n).stages_completed.count n = 1 := by
  by_cases hmem : n ∈ st.stages_completed
  · rw [PipelineState.complete_stage, if_pos hmem]
    have h0 : st.stages_completed.count n ≠ 0 := by
      rw [Ne, List.count_eq_zero]
      exact fun h => h hmem
    omega
  · rw [PipelineState.complete_stage, if_neg hmem]
    simp only [List.count_append]
    rw [List.count_eq_zero.2 hmem]
    simp

/-- C6 (amended form): for every state in which the stage `n` appears at
most once in `stages_completed` (every state the API itself can build, per
the data model's no-duplicates invariant), any number `k ≥ 1` of
`complete_stage n` calls leaves `n` in the list exactly once; and adding an
already-present value through `complete_stage`, `add_warning` or
`add_error` returns the state unchanged (for every state whatsoever). -/
theorem complete_stage_idempotent (s : PipelineState) (n : String) (k : ℕ)
    (hk : 1 ≤ k) (hcount : s.stages_completed.count n ≤ 1) :
    ((fun st : PipelineState => st.complete_stage n)^[k] s).stages_completed.count n = 1
      ∧ (∀ s' : PipelineState, n ∈ s'.stages_completed → s'.complete_stage n = s')
      ∧ (∀ (s' : PipelineState) (w : String), w ∈ s'.warnings → s'.add_warning w = s')
      ∧ (∀ (s' : PipelineState) (e : String), e ∈ s'.errors → s'.add_error e = s') := by
  refine ⟨?_, ?_, ?_, ?_⟩
  · induction k, hk using Nat.le_induction with
    | base =>
      rw [Function.iterate_one]
      exact complete_stage_count_step s n hcount
    | succ k hk ih =>
      rw [Function.iterate_succ_apply']
      exact complete_stage_count_step _ n (le_of_eq ih)
  · intro s' hmem
    rw [PipelineState.complete_stage, if_pos hmem]
  · intro s' w hmem
    rw [PipelineState.add_warning, if_pos hmem]
  · intro s' e hmem
    rw [PipelineState.add_error, if_pos hmem]

/-- Witness for C6: two completions of a stage on the fresh state. -/
theorem complete_stage_idempotent_witness :
    ((fun st : PipelineState => st.complete_stage "data_preparation")^[2]
        initial_pipeline_state).stages_completed.count "data_preparation" = 1 :=
  (complete_stage_idempotent initial_pipeline_state "data_preparation" 2
    (by norm_num) (by decide)).1

/-- C6 counterexample: on a hand-crafted state whose `stages_completed`
already holds the stage twice (expressible in the persisted YAML, never
produced by the API), two `complete_stage` calls leave it twice, not
exactly once, refuting the claim's unrestricted quantification over every
`PipelineState`. -/
theorem complete_stage_counterexample :
    ((fun st : PipelineState => st.complete_stage "a")^[2]
        { initial_pipeline_state with stages_completed := ["a", "a"] }
      ).stages_completed.count "a" = 2
    ∧ (2 : ℕ) ≠ 1 := by
  refine ⟨?_, by norm_num⟩
  decide

/-- C10: `PipelineState.load` returns the default-valued document both
when the state file is missing and when it exists but parses to empty
YAML (`yaml.safe_load` returning `None`); a parsed document is returned
as-is.  The function is total: neither degenerate input raises. -/
theorem pipeline_state_load_defaults :
    PipelineState.load none = initial_pipeline_state
      ∧ PipelineState.load (some none) = initial_pipeline_state
      ∧ ∀ d : PipelineState, PipelineState.load (some (some d)) = d :=
  ⟨rfl, rfl, fun _ => rfl⟩

/-- C2: whenever contract validation fails (for either validation
strategy; e.g. a required field missing from the payload), `create_handoff`
raises a `ContractValidationError` carrying every collected error message
and returns the filesystem exactly as it received it: no handoff file is
written and the handoffs directory is untouched. -/
theorem create_handoff_atomic (has_jsonschema : Bool)
    (jschema_errors : List (String × String) → List VErrInfo)
    (contract from_agent to_agent : String) (schema_required : List String)
    (data : List (String × String)) (now timestamp handoffs_dir : String) (fs : FS)
    (hinvalid : (HandoffValidator.validate has_jsonschema jschema_errors contract
        schema_required data now).valid = false) :
    (HandoffValidator.create_handoff has_jsonschema jschema_errors contract from_agent
        to_agent schema_required data now timestamp handoffs_dir fs).1 = fs
      ∧ (HandoffValidator.create_handoff has_jsonschema jschema_errors contract from_agent
          to_agent schema_required data now timestamp handoffs_dir fs).2
        = Except.error {
            contract := contract
            messages := (HandoffValidator.validate has_jsonschema jschema_errors contract
              schema_required data now).errors.map (fun e => e.message) } := by
  rw [HandoffValidator.create_handoff.eq_def, if_pos hinvalid]
  exact ⟨rfl, rfl⟩

/-- Witness for C2: a payload missing the required `model_path` field
under the basic validation path. -/
theorem create_handoff_atomic_witness :
    (HandoffValidator.create_handoff false (fun _ => []) "training-handoff" "training"
        "evaluation" ["model_path"] [] "t0" "20250101-000000" ".croak/handoffs" fs0).1 = fs0
      ∧ (HandoffValidator.create_handoff false (fun _ => []) "training-handoff" "training"
          "evaluation" ["model_path"] [] "t0" "20250101-000000" ".croak/handoffs" fs0).2
        = Except.error {
            contract := "training-handoff"
            messages := ["Required field missing: model_path"] } := by
  have h := create_handoff_atomic false (fun _ => []) "training-handoff" "training"
    "evaluation" ["model_path"] [] "t0" "20250101-000000" ".croak/handoffs" fs0 (by decide)
  refine ⟨h.1, ?_⟩
  rw [h.2]
  rfl

lemma contains_true_iff_mem {l : List String} {a : String} :
    l.contains a = true ↔ a ∈ l :=
  List.elem_iff

lemma contains_false_of_not_mem {l : List String} {a : String} (h : a ∉ l) :
    l.contains a = false :=
  Bool.eq_false_iff.2 (fun hc => h (contains_true_iff_mem.1 hc))

lemma find?_map_replace {α : Type*} (d : List (String × α)) (k : String) (v : α)
    (hk : k ∈ d.map Prod.fst) :
    (d.map (fun e => if e.1 == k then (k, v) else e)).find? (fun e => e.1 == k)
      = some (k, v) := by
  induction d with
  | nil => simp at hk
  | cons e rest ih =>
    by_cases he : e.1 = k
    · have hbeq : (e.1 == k) = true := beq_iff_eq.2 he
      simp only [List.map_cons, hbeq, if_true]
      rw [List.find?_cons_of_pos]
      simp
    · have hbeq : (e.1 == k) = false := beq_eq_false_iff_ne.2 he
      have hk2 : k ∈ rest.map Prod.fst := by
        simp only [List.map_cons, List.mem_cons] at hk
        rcases hk with h | h
        · exact absurd h.symm he
        · exact h
      simp only [List.map_cons, hbeq, Bool.false_eq_true, if_false]
      rw [List.find?_cons_of_neg]
      · exact ih hk2
      · simp [hbeq]

lemma find?_dict_set {α : Type*} (d : List (String × α)) (k : String) (v : α) :
    (dict_set d k v).find? (fun e => e.1 == k) = some (k, v) := by
  rw [dict_set]
  by_cases hk : (d.map Prod.fst).contains k
  · rw [if_pos hk]
    exact find?_map_replace d k v (contains_true_iff_mem.1 hk)
  · rw [if_neg hk]
    rw [List.find?_append]
    have h1 : d.find? (fun e => e.1 == k) = none := by
      rw [List.find?_eq_none]
      intro e he hp
      apply hk
      have he2 : e.1 = k := beq_iff_eq.1 (by simpa using hp)
      exact contains_true_iff_mem.2 (he2 ▸ List.mem_map_of_mem Prod.fst he)
    rw [h1]
    simp [List.find?]

lemma get_progress_after_complete (st : PipelineState) (wid sid : String)
    (arts : Option (List (String × String))) :
    (st.complete_workflow_step wid sid arts).get_workflow_progress wid
      = if sid ∈ st.get_workflow_progress wid then st.get_workflow_progress wid
        else st.get_workflow_progress wid ++ [sid] := by
  have hwp : (st.complete_workflow_step wid sid arts).workflow_progress
      = dict_set st.workflow_progress wid
          (if sid ∈ st.get_workflow_progress wid then st.get_workflow_progress wid
           else st.get_workflow_progress wid ++ [sid]) := by
    rw [PipelineState.complete_workflow_step.eq_def]
    cases arts with
    | none => rfl
    | some a =>
      by_cases ha : a = []
      · simp [ha]
      · simp [ha]
  rw [PipelineState.get_workflow_progress.eq_def, hwp, find?_dict_set]

lemma filter_contains_append_length (steps : List WorkflowStep) (prog : List String)
    (sid : String) (hnd : (steps.map (fun s => s.id)).Nodup) (hnot : sid ∉ prog)
    (hex : ∃ step ∈ steps, step.id = sid) :
    (steps.filter (fun s => (prog ++ [sid]).contains s.id)).length
      = (steps.filter (fun s => prog.contains s.id)).length + 1 := by
  induction steps with
  | nil =>
    obtain ⟨stp, hstp, _⟩ := hex
    exact absurd hstp (List.not_mem_nil stp)
  | cons s rest ih =>
    simp only [List.map_cons, List.nodup_cons] at hnd
    obtain ⟨hs_notin, hnd2⟩ := hnd
    by_cases hs : s.id = sid
    · have hp1 : ((prog ++ [sid]).contains s.id) = true :=
        contains_true_iff_mem.2 (List.mem_append_right _ (by simp [hs]))
      have hp0 : (prog.contains s.id) = false :=
        contains_false_of_not_mem (by rw [hs]; exact hnot)
      rw [List.filter_cons, List.filter_cons, hp1, hp0]
      simp only [if_true, Bool.false_eq_true, if_false, List.length_cons]
      have hrest : rest.filter (fun t => (prog ++ [sid]).contains t.id)
          = rest.filter (fun t => prog.contains t.id) := by
        apply List.filter_congr
        intro t ht
        have htid : t.id ≠ sid := by
          intro hteq
          exact hs_notin (hs ▸ hteq ▸ List.mem_map_of_mem (fun s => s.id) ht)
        rw [Bool.eq_iff_iff, contains_true_iff_mem, contains_true_iff_mem,
          List.mem_append]
        simp [htid]
      rw [hrest]
    · have hpeq : ((prog ++ [sid]).contains s.id) = (prog.contains s.id) := by
        rw [Bool.eq_iff_iff, contains_true_iff_mem, contains_true_iff_mem,
          List.mem_append]
        simp [hs]
      have hex2 : ∃ step ∈ rest, step.id = sid := by
        obtain ⟨stp, hstp, hid⟩ := hex
        rcases List.mem_cons.1 hstp with rfl | hstp2
        · exact absurd hid hs
        · exact ⟨stp, hstp2, hid⟩
      rw [List.filter_cons, List.filter_cons, hpeq]
      by_cases hp : prog.contains s.id = true
      · rw [hp]
        simp only [if_true, List.length_cons]
        rw [ih hnd2 hex2]
      · rw [Bool.eq_false_iff.2 hp]
        simp only [Bool.false_eq_true, if_false]
        exact ih hnd2 hex2

/-- C8: given a loaded workflow, `complete_step` raises exactly when the
step id is unknown or some declared dependency is not yet completed; on
success the step id is recorded in the workflow progress (appended once),
and — when the step was not already completed and step ids are distinct —
`get_progress` reports `completed_steps` incremented by one. -/
theorem complete_step_gate (w : Workflow) (st : PipelineState) (sid : String)
    (arts : Option (List (String × String))) :
    ((∃ e, WorkflowExecutor.complete_step w st sid arts = Except.error e)
        ↔ (w.get_step sid = none
            ∨ ∃ step, w.get_step sid = some step
                ∧ ∃ d ∈ step.depends_on, d ∉ st.get_workflow_progress w.id))
      ∧ (∀ st', WorkflowExecutor.complete_step w st sid arts = Except.ok st' →
          sid ∈ st'.get_workflow_progress w.id
          ∧ (sid ∉ st.get_workflow_progress w.id →
              st'.get_workflow_progress w.id = st.get_workflow_progress w.id ++ [sid]))
      ∧ (∀ st', WorkflowExecutor.complete_step w st sid arts = Except.ok st' →
          sid ∉ st.get_workflow_progress w.id →
          (w.steps.map (fun s => s.id)).Nodup →
          (w.get_progress (st'.get_workflow_progress w.id)).completed_steps
            = (w.get_progress (st.get_workflow_progress w.id)).completed_steps + 1) := by
  cases hgs : w.get_step sid with
  | none =>
    have hcs : WorkflowExecutor.complete_step w st sid arts
        = Except.error ("Step not found: " ++ sid) := by
      simp only [WorkflowExecutor.complete_step.eq_def, hgs]
    refine ⟨iff_of_true ⟨_, hcs⟩ (Or.inl rfl), ?_, ?_⟩
    · intro st' hok
      rw [hcs] at hok
      exact absurd hok (by simp)
    · intro st' hok
      rw [hcs] at hok
      exact absurd hok (by simp)
  | some step =>
    cases hf : step.depends_on.find?
        (fun d => !((st.get_workflow_progress w.id).contains d)) with
    | some d =>
      have hcs : WorkflowExecutor.complete_step w st sid arts
          = Except.error
              ("Dependency not met: " ++ d ++ " must be completed before " ++ sid) := by
        simp only [WorkflowExecutor.complete_step.eq_def, hgs, hf]
      have hd_mem : d ∈ step.depends_on := List.mem_of_find?_eq_some hf
      have hd_not : d ∉ st.get_workflow_progress w.id := by
        have hp := List.find?_some hf
        intro hmem
        rw [contains_true_iff_mem.2 hmem] at hp
        simp at hp
      refine ⟨iff_of_true ⟨_, hcs⟩ (Or.inr ⟨step, rfl, d, hd_mem, hd_not⟩), ?_, ?_⟩
      · intro st' hok
        rw [hcs] at hok
        exact absurd hok (by simp)
      · intro st' hok
        rw [hcs] at hok
        exact absurd hok (by simp)
    | none =>
      have hcs : WorkflowExecutor.complete_step w st sid arts
          = Except.ok (st.complete_workflow_step w.id sid arts) := by
        simp only [WorkflowExecutor.complete_step.eq_def, hgs, hf]
      have halldeps : ∀ d ∈ step.depends_on, d ∈ st.get_workflow_progress w.id := by
        intro d hd
        have hnp := List.find?_eq_none.1 hf d hd
        by_contra hnot
        exact hnp (by rw [contains_false_of_not_mem hnot]; rfl)
      refine ⟨?_, ?_, ?_⟩
      · apply iff_of_false
        · rintro ⟨e, he⟩
          rw [hcs] at he
          exact absurd he (by simp)
        · rintro (h | ⟨step2, hstep2, d, hd, hdnot⟩)
          · exact absurd h (by simp)
          · have hsteps : step2 = step := (Option.some.inj hstep2).symm
            subst hsteps
            exact hdnot (halldeps d hd)
      · intro st' hok
        rw [hcs] at hok
        have hst2 : st' = st.complete_workflow_step w.id sid arts := by
          simp only [Except.ok.injEq] at hok
          exact hok.symm
        subst hst2
        rw [get_progress_after_complete]
        by_cases hmem : sid ∈ st.get_workflow_progress w.id
        · rw [if_pos hmem]
          exact ⟨hmem, fun hn => absurd hmem hn⟩
        · rw [if_neg hmem]
          exact ⟨List.mem_append_right _ (by simp), fun _ => rfl⟩
      · intro st' hok hnot hnd
        rw [hcs] at hok
        have hst2 : st' = st.complete_workflow_step w.id sid arts := by
          simp only [Except.ok.injEq] at hok
          exact hok.symm
        subst hst2
        rw [get_progress_after_complete, if_neg hnot]
        have hex : ∃ stp ∈ w.steps, stp.id = sid := by
          have hgs2 : w.steps.find? (fun s => s.id == sid) = some step := hgs
          refine ⟨step, List.mem_of_find?_eq_some hgs2, ?_⟩
          exact beq_iff_eq.1 (@List.find?_some _ (fun s => s.id == sid) step w.steps hgs2)
        show (w.steps.filter
            (fun s => (st.get_workflow_progress w.id ++ [sid]).contains s.id)).length = _
        rw [filter_contains_append_length w.steps _ sid hnd hnot hex]
        rfl

/-- Witness for C8 on the concrete two-step workflow: completing B first
raises the dependency error; completing A succeeds, after which progress
reports 1 of 2 (50.0%), and completing B then succeeds. -/
theorem complete_step_gate_witness :
    (∃ e, WorkflowExecutor.complete_step wf_ab initial_pipeline_state "B" none
        = Except.error e)
      ∧ ∃ st1, WorkflowExecutor.complete_step wf_ab initial_pipeline_state "A" none
          = Except.ok st1
        ∧ (wf_ab.get_progress (st1.get_workflow_progress wf_ab.id)).completed_steps = 1
        ∧ (wf_ab.get_progress (st1.get_workflow_progress wf_ab.id)).progress_percent = 50
        ∧ ∃ st2, WorkflowExecutor.complete_step wf_ab st1 "B" none = Except.ok st2 := by
  constructor
  · exact (complete_step_gate wf_ab initial_pipeline_state "B" none).1.mpr
      (Or.inr ⟨{ id := "B", name := "B", depends_on := ["A"] }, rfl, "A", by decide, by decide⟩)
  · refine ⟨{ initial_pipeline_state with workflow_progress := [("annotation-workflow", ["A"])] },
      rfl, by decide, ?_, ⟨_, rfl⟩⟩
    have hprog : PipelineState.get_workflow_progress
        { initial_pipeline_state with workflow_progress := [("annotation-workflow", ["A"])] }
        wf_ab.id = ["A"] := by decide
    rw [hprog]
    have htot : wf_ab.steps.length = 2 := by decide
    have hdone : (wf_ab.steps.filter (fun s => List.contains ["A"] s.id)).length = 1 := by
      decide
    simp only [Workflow.get_progress]
    rw [htot, hdone]
    norm_num

lemma has_cycle_dfs_succ (w : Workflow) (fuel : ℕ) (x : String) (v s : List String) :
    has_cycle_dfs w (fuel + 1) x v s
      = match w.get_step x with
        | none => (false, set_add v x, (set_add s x).erase x)
        | some step =>
          let r := step.depends_on.foldl (dfs_step w fuel) (false, set_add v x, set_add s x)
          if r.1 then r else (false, r.2.1, r.2.2.erase x) := rfl

lemma fold_stops (w : Workflow) (fuel : ℕ) :
    ∀ (ds : List String) (acc : Bool × List String × List String), acc.1 = true →
      ds.foldl (dfs_step w fuel) acc = acc := by
  intro ds
  induction ds with
  | nil => intro acc h; rfl
  | cons d rest ih =>
    intro acc h
    rw [List.foldl_cons]
    have hstep : dfs_step w fuel acc d = acc := by rw [dfs_step, if_pos h]
    rw [hstep]
    exact ih acc h

/-- The DFS only grows `visited`, and every call that returns `False`
restores `stack` to what it was on entry (the Python code removes exactly
the id it pushed). -/
lemma dfs_mono_restore (w : Workflow) :
    ∀ (fuel : ℕ) (x : String) (v s : List String), s ⊆ v → x ∉ v →
      (∀ a ∈ v, a ∈ (has_cycle_dfs w fuel x v s).2.1)
      ∧ ((has_cycle_dfs w fuel x v s).1 = false → (has_cycle_dfs w fuel x v s).2.2 = s) := by
  intro fuel
  induction fuel with
  | zero =>
    intro x v s hsv hxv
    exact ⟨fun a ha => ha, fun _ => rfl⟩
  | succ fuel ih =>
    have hfold : ∀ (ds : List String) (v0 s0 : List String), s0 ⊆ v0 →
        (∀ a ∈ v0, a ∈ (ds.foldl (dfs_step w fuel) (false, v0, s0)).2.1)
        ∧ ((ds.foldl (dfs_step w fuel) (false, v0, s0)).1 = false →
            (ds.foldl (dfs_step w fuel) (false, v0, s0)).2.2 = s0) := by
      intro ds
      induction ds with
      | nil =>
        intro v0 s0 _
        exact ⟨fun a ha => ha, fun _ => rfl⟩
      | cons d rest ihd =>
        intro v0 s0 hsv
        rw [List.foldl_cons]
        by_cases hdv : d ∈ v0
        · by_cases hds : d ∈ s0
          · have hstep : dfs_step w fuel (false, v0, s0) d = (true, v0, s0) := by
              simp [dfs_step, hdv, hds]
            rw [hstep, fold_stops w fuel rest _ rfl]
            exact ⟨fun a ha => ha, fun h => by simp at h⟩
          · have hstep : dfs_step w fuel (false, v0, s0) d = (false, v0, s0) := by
              simp [dfs_step, hdv, hds]
            rw [hstep]
            exact ihd v0 s0 hsv
        · have hstep : dfs_step w fuel (false, v0, s0) d
              = has_cycle_dfs w fuel d v0 s0 := by
            simp [dfs_step, hdv]
          obtain ⟨hmono, hrest⟩ := ih d v0 s0 hsv hdv
          rcases hres : has_cycle_dfs w fuel d v0 s0 with ⟨b, v2, s2⟩
          rw [hres] at hmono hrest
          rw [hstep, hres]
          simp only at hmono hrest
          cases b with
          | true =>
            rw [fold_stops w fuel rest _ rfl]
            exact ⟨hmono, fun h => by simp at h⟩
          | false =>
            have hs2 : s2 = s0 := hrest rfl
            rw [hs2]
            obtain ⟨hm2, hr2⟩ := ihd v2 s0 (fun a ha => hmono a (hsv ha))
            exact ⟨fun a ha => hm2 a (hmono a ha), hr2⟩
    intro x v s hsv hxv
    have hxs : x ∉ s := fun h => hxv (hsv h)
    have hv1 : set_add v x = x :: v := by rw [set_add, if_neg hxv]
    have hs1 : set_add s x = x :: s := by rw [set_add, if_neg hxs]
    cases hgs : w.get_step x with
    | none =>
      simp only [has_cycle_dfs_succ, hgs, hv1, hs1]
      refine ⟨fun a ha => List.mem_cons_of_mem x ha, fun _ => ?_⟩
      exact List.erase_cons_head x s
    | some step =>
      simp only [has_cycle_dfs_succ, hgs, hv1, hs1]
      have hsub : (x :: s) ⊆ (x :: v) := by
        intro a ha
        rcases List.mem_cons.1 ha with rfl | ha2
        · exact List.mem_cons_self a v
        · exact List.mem_cons_of_mem x (hsv ha2)
      obtain ⟨hm, hr⟩ := hfold step.depends_on (x :: v) (x :: s) hsub
      by_cases hfound : (step.depends_on.foldl (dfs_step w fuel) (false, x :: v, x :: s)).1 = true
      · rw [if_pos hfound]
        refine ⟨fun a ha => hm a (List.mem_cons_of_mem x ha), fun h => ?_⟩
        exact absurd hfound (by rw [h]; simp)
      · have hfound2 : (step.depends_on.foldl (dfs_step w fuel) (false, x :: v, x :: s)).1
            = false := by
          cases hb : (step.depends_on.foldl (dfs_step w fuel) (false, x :: v, x :: s)).1
          · rfl
          · exact absurd hb hfound
        rw [if_neg (by rw [hfound2]; simp)]
        refine ⟨fun a ha => hm a (List.mem_cons_of_mem x ha), fun _ => ?_⟩
        rw [hr hfound2, List.erase_cons_head x s]

/-- If the target id `A` is already on the DFS stack, the dependency loop
returns true as soon as `A` occurs among the remaining dependencies. -/
lemma fold_finds_mem (w : Workflow) (A : String) (fuel : ℕ) :
    ∀ (ds : List String) (v0 s0 : List String), A ∈ ds → A ∈ s0 → s0 ⊆ v0 →
      (ds.foldl (dfs_step w fuel) (false, v0, s0)).1 = true := by
  intro ds
  induction ds with
  | nil => intro v0 s0 h _ _; exact absurd h (List.not_mem_nil A)
  | cons d rest ihd =>
    intro v0 s0 hAds hAs hsv
    rw [List.foldl_cons]
    by_cases hdA : d = A
    · subst hdA
      have hdv : d ∈ v0 := hsv hAs
      have hstep : dfs_step w fuel (false, v0, s0) d = (true, v0, s0) := by
        simp [dfs_step, hdv, hAs]
      rw [hstep, fold_stops w fuel rest _ rfl]
    · have hArest : A ∈ rest := by
        rcases List.mem_cons.1 hAds with h | h
        · exact absurd h.symm hdA
        · exact h
      by_cases hdv : d ∈ v0
      · by_cases hds : d ∈ s0
        · have hstep : dfs_step w fuel (false, v0, s0) d = (true, v0, s0) := by
            simp [dfs_step, hdv, hds]
          rw [hstep, fold_stops w fuel rest _ rfl]
        · have hstep : dfs_step w fuel (false, v0, s0) d = (false, v0, s0) := by
            simp [dfs_step, hdv, hds]
          rw [hstep]
          exact ihd v0 s0 hArest hAs hsv
      · have hstep : dfs_step w fuel (false, v0, s0) d
            = has_cycle_dfs w fuel d v0 s0 := by
          simp [dfs_step, hdv]
        obtain ⟨hmono, hrest⟩ := dfs_mono_restore w fuel d v0 s0 hsv hdv
        rcases hres : has_cycle_dfs w fuel d v0 s0 with ⟨b, v2, s2⟩
        rw [hres] at hmono hrest
        rw [hstep, hres]
        simp only at hmono hrest
        cases b with
        | true => rw [fold_stops w fuel rest _ rfl]
        | false =>
          have hs2 : s2 = s0 := hrest rfl
          rw [hs2]
          exact ihd v2 s0 hArest hAs (fun a ha => hmono a (hsv ha))

/-- Entering the DFS at `B` while `A` is on the stack returns true when
`B`'s step lists `A` among its dependencies: the loop eventually examines
`A`, which is visited and on the stack. -/
lemma dfs_back_edge (w : Workflow) (A B : String) (sb : WorkflowStep)
    (hgsB : w.get_step B = some sb) (hdepA : A ∈ sb.depends_on) :
    ∀ (fuel : ℕ) (v s : List String), A ∈ s → s ⊆ v → B ∉ v →
      (has_cycle_dfs w (fuel + 1) B v s).1 = true := by
  intro fuel v s hAs hsv hBv
  have hBs : B ∉ s := fun h => hBv (hsv h)
  have hv1 : set_add v B = B :: v := by rw [set_add, if_neg hBv]
  have hs1 : set_add s B = B :: s := by rw [set_add, if_neg hBs]
  simp only [has_cycle_dfs_succ, hgsB, hv1, hs1]
  have hsub : (B :: s) ⊆ (B :: v) := by
    intro a ha
    rcases List.mem_cons.1 ha with rfl | ha2
    · exact List.mem_cons_self a v
    · exact List.mem_cons_of_mem B (hsv ha2)
  have hfound := fold_finds_mem w A fuel sb.depends_on (B :: v) (B :: s) hdepA
    (List.mem_cons_of_mem B hAs) hsub
  rw [if_pos hfound]
  exact hfound

/-- As long as the whole call returns `False`, `B` (which has a back edge
to the on-stack `A`) is never added to `visited`: any visit to `B` would
have returned true and propagated. -/
lemma dfs_vis_B (w : Workflow) (A B : String) (sb : WorkflowStep)
    (hgsB : w.get_step B = some sb) (hdepA : A ∈ sb.depends_on) :
    ∀ (fuel : ℕ) (x : String) (v s : List String), x ∉ v → A ∈ s → s ⊆ v → B ∉ v →
      (has_cycle_dfs w fuel x v s).1 = false → B ∉ (has_cycle_dfs w fuel x v s).2.1 := by
  intro fuel
  induction fuel with
  | zero =>
    intro x v s _ _ _ hBv _
    simpa using hBv
  | succ fuel ih =>
    intro x v s hxv hAs hsv hBv hfalse
    by_cases hxB : x = B
    · rw [hxB] at hfalse
      have htrue := dfs_back_edge w A B sb hgsB hdepA fuel v s hAs hsv hBv
      rw [htrue] at hfalse
      exact absurd hfalse (by simp)
    · have hxs : x ∉ s := fun h => hxv (hsv h)
      have hv1 : set_add v x = x :: v := by rw [set_add, if_neg hxv]
      have hs1 : set_add s x = x :: s := by rw [set_add, if_neg hxs]
      have hBv1 : B ∉ (x :: v) := by
        intro h
        rcases List.mem_cons.1 h with h2 | h2
        · exact hxB h2.symm
        · exact hBv h2
      cases hgs : w.get_step x with
      | none =>
        simp only [has_cycle_dfs_succ, hgs, hv1, hs1]
        exact hBv1
      | some step =>
        have hfoldvis : ∀ (ds : List String) (v0 s0 : List String),
            A ∈ s0 → s0 ⊆ v0 → B ∉ v0 →
            (ds.foldl (dfs_step w fuel) (false, v0, s0)).1 = false →
            B ∉ (ds.foldl (dfs_step w fuel) (false, v0, s0)).2.1 := by
          intro ds
          induction ds with
          | nil => intro v0 s0 _ _ hB _; exact hB
          | cons d rest ihd =>
            intro v0 s0 hAs0 hsv0 hBv0 hfold_false
            rw [List.foldl_cons] at hfold_false ⊢
            by_cases hdv : d ∈ v0
            · by_cases hds : d ∈ s0
              · have hstep : dfs_step w fuel (false, v0, s0) d = (true, v0, s0) := by
                  simp [dfs_step, hdv, hds]
                rw [hstep, fold_stops w fuel rest _ rfl] at hfold_false
                exact absurd hfold_false (by simp)
              · have hstep : dfs_step w fuel (false, v0, s0) d = (false, v0, s0) := by
                  simp [dfs_step, hdv, hds]
                rw [hstep] at hfold_false ⊢
                exact ihd v0 s0 hAs0 hsv0 hBv0 hfold_false
            · have hstep : dfs_step w fuel (false, v0, s0) d
                  = has_cycle_dfs w fuel d v0 s0 := by
                simp [dfs_step, hdv]
              obtain ⟨hmono, hrest⟩ := dfs_mono_restore w fuel d v0 s0 hsv0 hdv
              rcases hres : has_cycle_dfs w fuel d v0 s0 with ⟨b, v2, s2⟩
              rw [hres] at hmono hrest
              rw [hstep, hres] at hfold_false ⊢
              simp only at hmono hrest
              cases b with
              | true =>
                rw [fold_stops w fuel rest _ rfl] at hfold_false
                exact absurd hfold_false (by simp)
              | false =>
                have hs2 : s2 = s0 := hrest rfl
                rw [hs2] at hfold_false ⊢
                have hBv2 : B ∉ v2 := by
                  have := ih d v0 s0 hdv hAs0 hsv0 hBv0
                  rw [hres] at this
                  simpa using this rfl
                exact ihd v2 s0 hAs0 (fun a ha => hmono a (hsv0 ha)) hBv2 hfold_false
        simp only [has_cycle_dfs_succ, hgs, hv1, hs1] at hfalse ⊢
        have hsub : (x :: s) ⊆ (x :: v) := by
          intro a ha
          rcases List.mem_cons.1 ha with rfl | ha2
          · exact List.mem_cons_self a v
          · exact List.mem_cons_of_mem x (hsv ha2)
        by_cases hfound : (step.depends_on.foldl (dfs_step w fuel) (false, x :: v, x :: s)).1
            = true
        · rw [if_pos hfound] at hfalse
          rw [hfound] at hfalse
          exact absurd hfalse (by simp)
        · have hfound2 : (step.depends_on.foldl (dfs_step w fuel)
              (false, x :: v, x :: s)).1 = false := by
            cases hb : (step.depends_on.foldl (dfs_step w fuel) (false, x :: v, x :: s)).1
            · rfl
            · exact absurd hb hfound
          rw [if_neg (by rw [hfound2]; simp)]
          exact hfoldvis step.depends_on (x :: v) (x :: s)
            (List.mem_cons_of_mem x hAs) hsub hBv1 hfound2

/-- The dependency loop of the step `A` (with `A` on the stack) returns
true when `B` occurs among the dependencies, because visiting `B` finds
the back edge to `A` — and `B` cannot have been visited earlier without
the whole call already having returned true. -/
lemma fold_via_B (w : Workflow) (A B : String) (sb : WorkflowStep)
    (hgsB : w.get_step B = some sb) (hdepA : A ∈ sb.depends_on) (fuel : ℕ) :
    ∀ (ds : List String) (v0 s0 : List String), B ∈ ds → A ∈ s0 → s0 ⊆ v0 → B ∉ v0 →
      (ds.foldl (dfs_step w (fuel + 1)) (false, v0, s0)).1 = true := by
  intro ds
  induction ds with
  | nil => intro v0 s0 h _ _ _; exact absurd h (List.not_mem_nil B)
  | cons d rest ihd =>
    intro v0 s0 hBds hAs hsv hBv
    rw [List.foldl_cons]
    by_cases hdB : d = B
    · have hdv : d ∉ v0 := by rw [hdB]; exact hBv
      have hstep : dfs_step w (fuel + 1) (false, v0, s0) d
          = has_cycle_dfs w (fuel + 1) d v0 s0 := by
        simp [dfs_step, hdv]
      have htrue : (has_cycle_dfs w (fuel + 1) d v0 s0).1 = true := by
        rw [hdB]
        exact dfs_back_edge w A B sb hgsB hdepA fuel v0 s0 hAs hsv hBv
      rw [hstep, fold_stops w (fuel + 1) rest _ htrue]
      exact htrue
    · have hBrest : B ∈ rest := by
        rcases List.mem_cons.1 hBds with h | h
        · exact absurd h.symm hdB
        · exact h
      by_cases hdv : d ∈ v0
      · by_cases hds : d ∈ s0
        · have hstep : dfs_step w (fuel + 1) (false, v0, s0) d = (true, v0, s0) := by
            simp [dfs_step, hdv, hds]
          rw [hstep, fold_stops w (fuel + 1) rest _ rfl]
        · have hstep : dfs_step w (fuel + 1) (false, v0, s0) d = (false, v0, s0) := by
            simp [dfs_step, hdv, hds]
          rw [hstep]
          exact ihd v0 s0 hBrest hAs hsv hBv
      · have hstep : dfs_step w (fuel + 1) (false, v0, s0) d
            = has_cycle_dfs w (fuel + 1) d v0 s0 := by
          simp [dfs_step, hdv]
        obtain ⟨hmono, hrest⟩ := dfs_mono_restore w (fuel + 1) d v0 s0 hsv hdv
        have hvis := dfs_vis_B w A B sb hgsB hdepA (fuel + 1) d v0 s0 hdv hAs hsv hBv
        rcases hres : has_cycle_dfs w (fuel + 1) d v0 s0 with ⟨b, v2, s2⟩
        rw [hres] at hmono hrest hvis
        rw [hstep, hres]
        simp only at hmono hrest hvis
        cases b with
        | true => rw [fold_stops w (fuel + 1) rest _ rfl]
        | false =>
          have hs2 : s2 = s0 := hrest rfl
          rw [hs2]
          exact ihd v2 s0 hBrest hAs (fun a ha => hmono a (hsv ha)) (hvis rfl)

/-- Entering the DFS at `A` with fresh sets finds the 2-cycle `A <-> B`,
whatever other steps and dependencies the workflow contains. -/
lemma dfs_root_finds (w : Workflow) (A B : String) (sa sb : WorkflowStep)
    (hgsA : w.get_step A = some sa) (hdepB : B ∈ sa.depends_on)
    (hgsB : w.get_step B = some sb) (hdepA : A ∈ sb.depends_on)
    (hne : A ≠ B) (fuel : ℕ) :
    (has_cycle_dfs w (fuel + 1 + 1) A [] []).1 = true := by
  have hv1 : set_add ([] : List String) A = [A] := by rw [set_add]; simp
  simp only [has_cycle_dfs_succ, hgsA, hv1]
  have hBnotin : B ∉ ([A] : List String) := by
    intro h
    rcases List.mem_cons.1 h with h2 | h2
    · exact hne h2.symm
    · exact absurd h2 (List.not_mem_nil B)
  have hfound := fold_via_B w A B sb hgsB hdepA fuel sa.depends_on [A] [A]
    hdepB (List.mem_cons_self A []) (fun a ha => ha) hBnotin
  rw [if_pos hfound]
  exact hfound

/-- C9 (amended form): for every workflow containing the 2-cycle `A <-> B`
(identified through `get_step`, so duplicates resolve as the source does),
static validation reports `valid = False` together with a
circular-dependency error naming some step — namely the first step in
declaration order from which the DFS reaches a cycle, which need not lie
on the A-B cycle itself. -/
theorem validate_workflow_cycle (w : Workflow) (fex : String → Bool)
    (sa sb : WorkflowStep) (A B : String)
    (hA : w.get_step A = some sa) (hB : w.get_step B = some sb)
    (hAB : B ∈ sa.depends_on) (hBA : A ∈ sb.depends_on) (hne : A ≠ B) :
    (WorkflowExecutor.validate_workflow w fex).valid = false
      ∧ ∃ sid, ("Circular dependency detected involving step " ++ sid)
          ∈ (WorkflowExecutor.validate_workflow w fex).errors := by
  have hA2 : w.steps.find? (fun s => s.id == A) = some sa := hA
  have hsa_mem : sa ∈ w.steps := List.mem_of_find?_eq_some hA2
  have hsa_id : sa.id = A := beq_iff_eq.1 (@List.find?_some _ (fun s => s.id == A) sa w.steps hA2)
  have hdep_pos : 1 ≤ sa.depends_on.length :=
    List.length_pos.2 (List.ne_nil_of_mem hAB)
  have hdep_mem : sa.depends_on.length ∈ w.steps.map (fun s => s.depends_on.length) :=
    List.mem_map_of_mem (fun s => s.depends_on.length) hsa_mem
  have hsum : 1 ≤ (w.steps.map (fun s => s.depends_on.length)).sum :=
    le_trans hdep_pos (List.single_le_sum (fun x _ => Nat.zero_le x) _ hdep_mem)
  have hlen : 1 ≤ w.steps.length := List.length_pos.2 (List.ne_nil_of_mem hsa_mem)
  have hfuel : ∃ f, dfs_fuel w = f + 1 + 1 := by
    have : 2 ≤ dfs_fuel w := by
      rw [dfs_fuel]
      omega
    exact ⟨dfs_fuel w - 2, by omega⟩
  obtain ⟨f, hf⟩ := hfuel
  have hApred : (has_cycle_dfs w (dfs_fuel w) sa.id [] []).1 = true := by
    rw [hsa_id, hf]
    exact dfs_root_finds w A B sa sb hA hAB hB hBA hne f
  have hsome : (w.steps.find?
      (fun step => (has_cycle_dfs w (dfs_fuel w) step.id [] []).1)).isSome := by
    rw [List.find?_isSome]
    exact ⟨sa, hsa_mem, hApred⟩
  obtain ⟨stp, hstp⟩ := Option.isSome_iff_exists.1 hsome
  have hce : cycle_error w
      = ["Circular dependency detected involving step " ++ stp.id] := by
    rw [cycle_error, hstp]
  constructor
  · show (dep_errors w ++ cycle_error w).isEmpty = false
    rw [hce]
    simp
  · refine ⟨stp.id, ?_⟩
    show _ ∈ dep_errors w ++ cycle_error w
    rw [hce]
    exact List.mem_append_right _ (by simp)

/-- Witness for C9 at the concrete two-step cycle. -/
theorem validate_workflow_cycle_witness :
    (WorkflowExecutor.validate_workflow wf_cycle (fun _ => true)).valid = false
      ∧ ∃ sid, ("Circular dependency detected involving step " ++ sid)
          ∈ (WorkflowExecutor.validate_workflow wf_cycle (fun _ => true)).errors :=
  validate_workflow_cycle wf_cycle (fun _ => true)
    { id := "A", name := "A", depends_on := ["B"] }
    { id := "B", name := "B", depends_on := ["A"] }
    "A" "B" rfl rfl (by decide) (by decide) (by decide)

/-- C9 counterexample: with step C (declared first) depending on A, and
the cycle A <-> B, validation is invalid but its only circular-dependency
error names C — which is not a step of the cycle — refuting the claim's
"error ... involving a step of the cycle". -/
theorem validate_workflow_cycle_counterexample :
    (WorkflowExecutor.validate_workflow wf_cab (fun _ => true)).valid = false
      ∧ ("Circular dependency detected involving step C")
          ∈ (WorkflowExecutor.validate_workflow wf_cab (fun _ => true)).errors
      ∧ ("Circular dependency detected involving step A")
          ∉ (WorkflowExecutor.validate_workflow wf_cab (fun _ => true)).errors
      ∧ ("Circular dependency detected involving step B")
          ∉ (WorkflowExecutor.validate_workflow wf_cab (fun _ => true)).errors := by
  refine ⟨by decide, by decide, by decide, by decide⟩
